import Mathlib

/-!
Service locator (`locator.go`)

A shallow embedding of the Go package `locator`: the registration table
`DefaultLocator.services : map[string]*service`, the three registration methods
(`Transient`, `Scoped`, `Singleton`), the two resolution methods (`Get`, `GetScoped`) and
the HTTP `Middleware`.

Modelling decisions

* `interface{}` values are `Iface`: the nil interface or a non-nil value named by a number.
* `map[string]*service` is an association list from names to addresses, and the records
  live in `Store.heap` (address = index).  Assignment `m[k] = p` removes every older entry
  for `k`, as a Go map holds one entry per key.
* Builders are Go closures supplied by the caller.  A record stores the builder as a tagged
  identifier (`Builder`), and an environment `Env` gives the code of every identifier as
  a partial state transformer on the whole store: a builder may call back into the
  locator, change the world outside it, or fail to return (`none`: panic, exit, or
  divergence).
* A `Store` holds a locator whose `services` map is allocated, as `New()` makes it.  The
  zero value `DefaultLocator{}` has a nil map: reading it finds no entry, assigning to it
  panics.  `LocatorValue` adds that case to the stores.
* `log.Fatalf` ends the process: `Result.fatal`.
* `range loc.services` visits the keys in an order Go leaves unspecified: `Middleware`
  takes that order as an argument.
-/

namespace Locator

/-- Go value of static type `interface{}`: the nil interface, or a non-nil value. -/
inductive Iface where
  | nil
  | val (id : Nat)
  deriving DecidableEq, Repr

/-- Keys of a `context.Context`: a Go string, or a value of any other type. -/
inductive CtxKey where
  | str (s : String)
  | other (tag : Nat)
  deriving DecidableEq, Repr

/-- Go `context.Context` seen through `Value`: the chain of `WithValue` nodes, newest first. -/
abbrev Context := List (CtxKey × Iface)

/-- Go `ctx.Value(key)`: the value of the nearest node carrying `key`, or nil. -/
def Context.Value (ctx : Context) (key : CtxKey) : Iface :=
  match ctx with
  | [] => Iface.nil
  | (k, v) :: parent => if k = key then v else Context.Value parent key

/-- Go `context.WithValue(parent, key, val)`. -/
def WithValue (parent : Context) (key : CtxKey) (val : Iface) : Context :=
  (key, val) :: parent

/-- Go `*http.Request`, reduced to an identity and its context. -/
structure Request where
  id : Nat
  ctx : Context
  deriving DecidableEq, Repr

/-- Go `r.Context()`. -/
def Request.Context (r : Request) : Locator.Context := r.ctx

/-- Go `r.WithContext(ctx)`: a copy of the request with the context replaced. -/
def Request.WithContext (r : Request) (ctx : Locator.Context) : Request := { r with ctx := ctx }

/-- Field `service.builder` (an `interface{}`): either a `ServiceBuilder` or a
`ScopedServiceBuilder`, each named by the identifier of its code in the environment. -/
inductive Builder where
  | ServiceBuilder (id : Nat)
  | ScopedServiceBuilder (id : Nat)
  deriving DecidableEq, Repr

/-- Go `type service struct`. Fields `scoped_` and `instance_` are the Go fields `scoped` and
`instance` (both words are reserved in Lean). -/
structure service where
  builder : Builder
  singleton : Bool
  scoped_ : Bool
  instance_ : Iface
  deriving DecidableEq, Repr

/-- Go `type DefaultLocator struct` with an allocated map: `services` maps a name to the
address of its record. The zero value, whose map is nil, is `LocatorValue.zero`. -/
structure DefaultLocator where
  services : List (String × Nat)
  deriving DecidableEq, Repr

/-- Program state: the locator, the `service` records allocated so far (a `*service` is an
index into `heap`), and the state outside the locator that builders may read and write. -/
structure Store where
  loc : DefaultLocator
  heap : List service
  world : Nat
  deriving DecidableEq, Repr

/-- Code of the caller-supplied closures: `ServiceBuilder`s, `ScopedServiceBuilder`s and
`http.Handler`s, each a partial transformer of the store (`none`: it does not return). -/
structure Env where
  serviceBuilder : Nat → Store → Option (Iface × Store)
  scopedBuilder : Nat → Request → Store → Option (Iface × Store)
  handler : Nat → Request → Store → Option Store

/-- The messages of the three `log.Fatalf` calls. -/
inductive Fatal where
  | couldNotFindService (name : String)
  | useGetScoped
  | getScopedOnlyForScoped
  deriving DecidableEq, Repr

/-- Error conditions named in the specification. -/
inductive Condition where
  | NotFound
  | WrongAccessPattern
  deriving DecidableEq, Repr

/-- Condition that each fatal message stands for. -/
def Fatal.condition : Fatal → Condition
  | .couldNotFindService _ => .NotFound
  | .useGetScoped => .WrongAccessPattern
  | .getScopedOnlyForScoped => .WrongAccessPattern

/-- One completed builder invocation made directly by the locator: the name being
resolved, the builder called, the request passed (scoped builders) and the value returned. -/
inductive Invocation where
  | service (name : String) (builder : Nat) (result : Iface)
  | scopedService (name : String) (builder : Nat) (r : Request) (result : Iface)
  deriving DecidableEq, Repr

/-- Name a builder invocation was made for. -/
def Invocation.name : Invocation → String
  | .service n _ _ => n
  | .scopedService n _ _ _ => n

/-- Outcome of `Get` / `GetScoped`: a returned value with the store after the call and the
builder invocations made, a `log.Fatalf`, a builder that did not return, or a run-time
panic (failed type assertion, nil record). -/
inductive Result where
  | ret (v : Iface) (s : Store) (invoked : List Invocation)
  | fatal (f : Fatal) (invoked : List Invocation)
  | noReturn
  | panic
  deriving DecidableEq, Repr

/-- Go `m[name]` with the comma-ok form. -/
def mapLookup (m : List (String × Nat)) (name : String) : Option Nat :=
  match m with
  | [] => none
  | (k, p) :: rest => if k = name then some p else mapLookup rest name

/-- Go `m[name] = p`: the entry for `name` is replaced, or added when absent. -/
def mapAssign (m : List (String × Nat)) (name : String) (p : Nat) : List (String × Nat) :=
  (name, p) :: m.filter (fun e => !decide (e.1 = name))

/-- Keys of the map. -/
def mapKeys (m : List (String × Nat)) : List String := m.map Prod.fst

/-- Go `srv.instance = v` for the record at address `p`. -/
def Store.setInstance (s : Store) (p : Nat) (v : Iface) : Store :=
  match s.heap[p]? with
  | some srv => { s with heap := s.heap.set p { srv with instance_ := v } }
  | none => s

/-- Go `loc.services[name] = &service{...}` on an allocated map: allocate the record and
bind the name to it. (On the nil map of the zero-value locator the assignment panics: see
`LocatorValue.register`.) -/
def Store.register (s : Store) (name : String) (srv : service) : Store :=
  { s with
    heap := s.heap ++ [srv]
    loc := { services := mapAssign s.loc.services name s.heap.length } }

/-- Go `New()`: a locator with an empty map (and no record allocated yet). -/
def New (world : Nat) : Store :=
  { loc := { services := [] }, heap := [], world := world }

/-- Go `(*DefaultLocator).Transient`, on a locator whose map is allocated. -/
def Transient (name : String) (builder : Nat) (s : Store) : Store :=
  s.register name
    { builder := Builder.ServiceBuilder builder, singleton := false, scoped_ := false,
      instance_ := Iface.nil }

/-- Go `(*DefaultLocator).Scoped`, on a locator whose map is allocated. -/
def Scoped (name : String) (builder : Nat) (s : Store) : Store :=
  s.register name
    { builder := Builder.ScopedServiceBuilder builder, singleton := false, scoped_ := true,
      instance_ := Iface.nil }

/-- Go `(*DefaultLocator).Singleton`, on a locator whose map is allocated. -/
def Singleton (name : String) (builder : Nat) (s : Store) : Store :=
  s.register name
    { builder := Builder.ServiceBuilder builder, singleton := true, scoped_ := false,
      instance_ := Iface.nil }

/-- Go `srv.builder.(ServiceBuilder)(loc)`: the type assertion, then the call. -/
def callServiceBuilder (env : Env) (b : Builder) (s : Store) : Option (Option (Nat × Iface × Store)) :=
  match b with
  | Builder.ServiceBuilder id =>
    match env.serviceBuilder id s with
    | some (v, s1) => some (some (id, v, s1))
    | none => some none
  | Builder.ScopedServiceBuilder _ => none

/-- Go `(*DefaultLocator).Get`. -/
def Get (env : Env) (name : String) (s : Store) : Result :=
  match mapLookup s.loc.services name with
  | none => Result.fatal (Fatal.couldNotFindService name) []
  | some p =>
    match s.heap[p]? with
    | none => Result.panic
    | some srv =>
      if srv.singleton then
        if srv.instance_ = Iface.nil then
          match callServiceBuilder env srv.builder s with
          | none => Result.panic
          | some none => Result.noReturn
          | some (some (id, v, s1)) =>
            let s2 := s1.setInstance p v
            match s2.heap[p]? with
            | some srv2 => Result.ret srv2.instance_ s2 [Invocation.service name id v]
            | none => Result.panic
        else Result.ret srv.instance_ s []
      else if srv.scoped_ then Result.fatal Fatal.useGetScoped []
      else
        match callServiceBuilder env srv.builder s with
        | none => Result.panic
        | some none => Result.noReturn
        | some (some (id, v, s1)) => Result.ret v s1 [Invocation.service name id v]

/-- Go `(*DefaultLocator).GetScoped`. -/
def GetScoped (ctx : Context) (name : String) (s : Store) : Result :=
  match mapLookup s.loc.services name with
  | none => Result.fatal (Fatal.couldNotFindService name) []
  | some p =>
    match s.heap[p]? with
    | none => Result.panic
    | some srv =>
      if !srv.scoped_ then Result.fatal Fatal.getScopedOnlyForScoped []
      else Result.ret (ctx.Value (CtxKey.str name)) s []

/-- Outcome of the `range loc.services` loop of `Middleware`: the context built, the store
after the loop and the scoped builder invocations made, or a builder that did not return,
or a run-time panic. -/
inductive LoopResult where
  | done (ctx : Context) (s : Store) (invoked : List Invocation)
  | noReturn
  | panic
  deriving DecidableEq, Repr

/-- Loop of `Middleware`: `for name, srv := range loc.services`, visiting the keys in
`order`. The entry of a key is read when the key is visited. -/
def rangeServices (env : Env) (r : Request) (order : List String) (ctx : Context)
    (s : Store) : LoopResult :=
  match order with
  | [] => LoopResult.done ctx s []
  | name :: rest =>
    match mapLookup s.loc.services name with
    | none => rangeServices env r rest ctx s
    | some p =>
      match s.heap[p]? with
      | none => LoopResult.panic
      | some srv =>
        if srv.scoped_ then
          match srv.builder with
          | Builder.ScopedServiceBuilder id =>
            match env.scopedBuilder id r s with
            | none => LoopResult.noReturn
            | some (v, s1) =>
              match rangeServices env r rest (WithValue ctx (CtxKey.str name) v) s1 with
              | LoopResult.done c s2 tr =>
                LoopResult.done c s2 (Invocation.scopedService name id r v :: tr)
              | other => other
          | Builder.ServiceBuilder _ => LoopResult.panic
        else rangeServices env r rest ctx s

/-- Outcome of serving one request through the handler returned by `Middleware`. -/
inductive ServeResult where
  | served (passed : Request) (s : Store) (invoked : List Invocation)
  | noReturn
  | panic
  deriving DecidableEq, Repr

/-- Go `(*DefaultLocator).Middleware`: the handler it returns, applied to request `r`.
`order` is the order in which `range` visits the keys, `next` the wrapped handler.
`served passed s invoked` reports the request handed to `next` and the store after `next`
returned. -/
def Middleware (env : Env) (order : List String) (next : Nat) (r : Request) (s : Store) :
    ServeResult :=
  match rangeServices env r order r.Context s with
  | LoopResult.done ctx s1 tr =>
    match env.handler next (r.WithContext ctx) s1 with
    | some s2 => ServeResult.served (r.WithContext ctx) s2 tr
    | none => ServeResult.noReturn
  | LoopResult.noReturn => ServeResult.noReturn
  | LoopResult.panic => ServeResult.panic

/-- A call of one of the three registration methods. -/
inductive Registration where
  | Transient (name : String) (builder : Nat)
  | Scoped (name : String) (builder : Nat)
  | Singleton (name : String) (builder : Nat)
  deriving DecidableEq, Repr

/-- Name a registration call binds. -/
def Registration.name : Registration → String
  | .Transient n _ => n
  | .Scoped n _ => n
  | .Singleton n _ => n

/-- Effect of a registration call on the store. -/
def Registration.apply : Registration → Store → Store
  | .Transient n b, s => Locator.Transient n b s
  | .Scoped n b, s => Locator.Scoped n b s
  | .Singleton n b, s => Locator.Singleton n b s

/-- Record that a registration call allocates. -/
def Registration.record : Registration → service
  | .Transient _ b =>
    { builder := Builder.ServiceBuilder b, singleton := false, scoped_ := false,
      instance_ := Iface.nil }
  | .Scoped _ b =>
    { builder := Builder.ScopedServiceBuilder b, singleton := false, scoped_ := true,
      instance_ := Iface.nil }
  | .Singleton _ b =>
    { builder := Builder.ServiceBuilder b, singleton := true, scoped_ := false,
      instance_ := Iface.nil }

/-- Store after a list of registration calls, made in order. -/
def registerAll (regs : List Registration) (s : Store) : Store :=
  regs.foldl (fun acc reg => reg.apply acc) s

/-- One operation of a client on the locator. -/
inductive Op where
  | register (reg : Registration)
  | Get (name : String)
  | GetScoped (ctx : Context) (name : String)
  | Serve (order : List String) (next : Nat) (r : Request)

/-- Store after one operation, when the operation returns. -/
def step (env : Env) (op : Op) (s : Store) : Option Store :=
  match op with
  | Op.register reg => some (reg.apply s)
  | Op.Get name =>
    match Get env name s with
    | Result.ret _ s1 _ => some s1
    | _ => none
  | Op.GetScoped ctx name =>
    match GetScoped ctx name s with
    | Result.ret _ s1 _ => some s1
    | _ => none
  | Op.Serve order next r =>
    match Middleware env order next r s with
    | ServeResult.served _ s1 _ => some s1
    | _ => none

/-- Store after a sequence of operations, when all of them return. -/
def run (env : Env) (ops : List Op) (s : Store) : Option Store :=
  match ops with
  | [] => some s
  | op :: rest =>
    match step env op s with
    | some s1 => run env rest s1
    | none => none

/-- Result of `k` consecutive calls `Get(name)`: the values returned, the final store and
all builder invocations made, when every call returns. -/
def GetRepeat (env : Env) (name : String) (k : Nat) (s : Store) :
    Option (List Iface × Store × List Invocation) :=
  match k with
  | 0 => some ([], s, [])
  | k + 1 =>
    match Get env name s with
    | Result.ret v s1 tr =>
      match GetRepeat env name k s1 with
      | some (vs, s2, tr2) => some (v :: vs, s2, tr ++ tr2)
      | none => none
    | _ => none

/-- Record bound to `name`, with its address. -/
def Store.find (s : Store) (name : String) : Option (Nat × service) :=
  match mapLookup s.loc.services name with
  | none => none
  | some p =>
    match s.heap[p]? with
    | none => none
    | some srv => some (p, srv)


/-- Environment whose service builders all return the nil interface and count their calls
in the world; scoped builders return the request id; handlers return at once. -/
def envNil : Env :=
  { serviceBuilder := fun _ s => some (Iface.nil, { s with world := s.world + 1 })
    scopedBuilder := fun _ r s => some (Iface.val r.id, s)
    handler := fun _ _ s => some s }

/-- Environment whose service builder `b` returns the non-nil value numbered by the current
world and then advances the world (an incrementing counter); scoped builders return the
request id; handlers return at once. -/
def envCounter : Env :=
  { serviceBuilder := fun _ s => some (Iface.val s.world, { s with world := s.world + 1 })
    scopedBuilder := fun _ r s => some (Iface.val r.id, s)
    handler := fun _ _ s => some s }

/-- Relation between the store before (`s`) and after (`s1`) a call that makes no
registration: the map is the same, no record has been allocated, every record keeps its
builder and flags, and a cache slot differs only if the record is a singleton whose slot was
empty before. -/
def TableFrame (s s1 : Store) : Prop :=
  s1.loc = s.loc ∧ s1.heap.length = s.heap.length ∧
  ∀ (p : Nat) (srv : service), s.heap[p]? = some srv →
    ∃ srv1, s1.heap[p]? = some srv1 ∧ srv1.builder = srv.builder ∧
      srv1.singleton = srv.singleton ∧ srv1.scoped_ = srv.scoped_ ∧
      (srv1.instance_ = srv.instance_ ∨ (srv.singleton = true ∧ srv.instance_ = Iface.nil))

/-- Every closure of the environment that returns relates the store it was given to the
store it leaves by `R`. -/
def Env.respects (env : Env) (R : Store → Store → Prop) : Prop :=
  (∀ b s v s1, env.serviceBuilder b s = some (v, s1) → R s s1) ∧
  (∀ b r s v s1, env.scopedBuilder b r s = some (v, s1) → R s s1) ∧
  (∀ h r s s1, env.handler h r s = some s1 → R s s1)

/-- Every bound name points to an allocated record, and a record flagged scoped stores
a `ScopedServiceBuilder`. -/
def ScopedRecordsSound (s : Store) : Prop :=
  ∀ (name : String) (p : Nat), mapLookup s.loc.services name = some p →
    ∃ srv, s.heap[p]? = some srv ∧
      (srv.scoped_ = true → ∃ id, srv.builder = Builder.ScopedServiceBuilder id)

/-- The name is bound to a record flagged scoped. -/
def Store.isScopedName (s : Store) (name : String) : Prop :=
  ∃ p srv, s.find name = some (p, srv) ∧ srv.scoped_ = true

/-- Cache slot of the record bound to `name`, when the name is bound. -/
def Store.cached (s : Store) (name : String) : Option Iface :=
  match s.find name with
  | some (_, srv) => some srv.instance_
  | none => none

/-- The name `n` is bound to the record at address `p`, which is a singleton whose cache
slot holds `v`. -/
def CachedAt (n : String) (p : Nat) (v : Iface) (s : Store) : Prop :=
  mapLookup s.loc.services n = some p ∧
    ∃ srv, s.heap[p]? = some srv ∧ srv.singleton = true ∧ srv.instance_ = v

/-- The operation is not a registration under the name `n`. -/
def Op.keepsName (n : String) : Op → Prop
  | Op.register reg => reg.name ≠ n
  | _ => True

/-- The record belongs to one strategy class: its singleton and scoped flags are not both
set (transient = neither). -/
def service.oneStrategy (srv : service) : Bool := !(srv.singleton && srv.scoped_)

/-- The cache slot is populated only if the record is a singleton. -/
def service.cacheOnlyOnSingleton (srv : service) : Bool :=
  decide (srv.instance_ = Iface.nil) || srv.singleton

/-- The stored builder has the shape the scoped flag demands: a `ScopedServiceBuilder`
exactly when the flag is set. -/
def service.builderMatches (srv : service) : Bool :=
  match srv.builder with
  | Builder.ScopedServiceBuilder _ => srv.scoped_
  | Builder.ServiceBuilder _ => !srv.scoped_

/-- Invariant of the store: the map holds one entry per name, every entry points to an
allocated record, and every allocated record is of one strategy class, caches only if it is
a singleton, and stores a builder of the shape its flag demands. -/
def WellFormed (s : Store) : Prop :=
  (mapKeys s.loc.services).Nodup ∧
  (∀ (name : String) (p : Nat), mapLookup s.loc.services name = some p → p < s.heap.length) ∧
  ∀ (p : Nat) (srv : service), s.heap[p]? = some srv →
    srv.oneStrategy = true ∧ srv.cacheOnlyOnSingleton = true ∧ srv.builderMatches = true

/-- Every record allocated in `s` is still allocated in `s1`, with the same builder and
flags. -/
def RecordsKept (s s1 : Store) : Prop :=
  ∀ (p : Nat) (srv : service), s.heap[p]? = some srv →
    ∃ srv1, s1.heap[p]? = some srv1 ∧ srv1.builder = srv.builder ∧
      srv1.singleton = srv.singleton ∧ srv1.scoped_ = srv.scoped_

/-- What caller code may do to the store when it reaches the locator only through its
methods: records once allocated keep their builder and flags, and the invariant is kept. -/
def ApiStep (s s1 : Store) : Prop :=
  RecordsKept s s1 ∧ (WellFormed s → WellFormed s1)

/-- Point a goroutine has reached inside a call `Get(name)`. `Get` takes no lock, so other
goroutines may run between any two of these points. -/
inductive Phase where
  | start
  | toBuild (p : Nat)
  | built (p : Nat) (v : Iface)
  | toReturn (p : Nat)
  | toBuildTransient (p : Nat)
  | done (v : Iface)
  | fatal (f : Fatal)
  | noReturn
  | panic
  deriving DecidableEq, Repr

/-- One step of a goroutine inside `Get(name)`, on the shared store:
`start`: the map lookup and the tests `srv.singleton`, `srv.instance == nil`, `srv.scoped`
(the cache check); `toBuild p`: `srv.builder.(ServiceBuilder)(loc)` (the builder
invocation); `built p v`: `srv.instance = v` (the cache store); `toReturn p`:
`return srv.instance`; `toBuildTransient p`: `return srv.builder.(ServiceBuilder)(loc)`.
A goroutine that has finished stays where it is. -/
def GetStep (env : Env) (name : String) (ph : Phase) (s : Store) :
    Phase × Store × List Invocation :=
  match ph with
  | Phase.start =>
    match mapLookup s.loc.services name with
    | none => (Phase.fatal (Fatal.couldNotFindService name), s, [])
    | some p =>
      match s.heap[p]? with
      | none => (Phase.panic, s, [])
      | some srv =>
        if srv.singleton then
          if srv.instance_ = Iface.nil then (Phase.toBuild p, s, [])
          else (Phase.toReturn p, s, [])
        else if srv.scoped_ then (Phase.fatal Fatal.useGetScoped, s, [])
        else (Phase.toBuildTransient p, s, [])
  | Phase.toBuild p =>
    match s.heap[p]? with
    | none => (Phase.panic, s, [])
    | some srv =>
      match callServiceBuilder env srv.builder s with
      | none => (Phase.panic, s, [])
      | some none => (Phase.noReturn, s, [])
      | some (some (id, v, s1)) => (Phase.built p v, s1, [Invocation.service name id v])
  | Phase.built p v => (Phase.toReturn p, s.setInstance p v, [])
  | Phase.toReturn p =>
    match s.heap[p]? with
    | none => (Phase.panic, s, [])
    | some srv => (Phase.done srv.instance_, s, [])
  | Phase.toBuildTransient p =>
    match s.heap[p]? with
    | none => (Phase.panic, s, [])
    | some srv =>
      match callServiceBuilder env srv.builder s with
      | none => (Phase.panic, s, [])
      | some none => (Phase.noReturn, s, [])
      | some (some (id, v, s1)) => (Phase.done v, s1, [Invocation.service name id v])
  | other => (other, s, [])

/-- State of several goroutines that all run `Get(name)` on one locator: the point each
has reached, the shared store, and the builder invocations made so far. -/
structure Conc where
  phases : Nat → Phase
  store : Store
  invoked : List Invocation

/-- All goroutines are about to start, on store `s`. -/
def Conc.init (s : Store) : Conc :=
  { phases := fun _ => Phase.start, store := s, invoked := [] }

/-- Goroutine `i` takes its next step. -/
def stepThread (env : Env) (name : String) (i : Nat) (c : Conc) : Conc :=
  match GetStep env name (c.phases i) c.store with
  | (ph, s1, tr) =>
    { phases := fun j => if j = i then ph else c.phases j
      store := s1
      invoked := c.invoked ++ tr }

/-- Run of the goroutines under a schedule: the list of goroutines that take a step, in
order. -/
def runSchedule (env : Env) (name : String) (schedule : List Nat) (c : Conc) : Conc :=
  match schedule with
  | [] => c
  | i :: rest => runSchedule env name rest (stepThread env name i c)

/-- Schedule in which goroutines `0 .. n-1` run one after the other, each to the end of its
call (a call takes at most four steps). -/
def serialSchedule (n : Nat) : List Nat :=
  match n with
  | 0 => []
  | k + 1 => serialSchedule k ++ [k, k, k, k]

/-- Result of a call made by a goroutine that runs alone: four steps from `start`. -/
def soloGet (env : Env) (name : String) (s : Store) : Result :=
  match (runSchedule env name [0, 0, 0, 0] (Conc.init s)) with
  | c =>
    match c.phases 0 with
    | Phase.done v => Result.ret v c.store c.invoked
    | Phase.fatal f => Result.fatal f c.invoked
    | Phase.noReturn => Result.noReturn
    | _ => Result.panic

/-- Every scoped builder registered in `s` returns when it is called for request `r` on
a store that has the table of `s` (cache slots and the world may differ). -/
def ScopedBuildersReturn (env : Env) (r : Request) (s : Store) : Prop :=
  ∀ (n : String) (p : Nat) (srv : service) (id : Nat) (sa : Store),
    s.find n = some (p, srv) → srv.scoped_ = true →
    srv.builder = Builder.ScopedServiceBuilder id → TableFrame s sa →
    ∃ v s1, env.scopedBuilder id r sa = some (v, s1)

/-- The value a scoped builder registered in `s` returns for request `r` is the same on
every store that has the table of `s`: it depends on the request and the table, not on
what was invoked before it. -/
def ScopedValuesFixed (env : Env) (r : Request) (s : Store) : Prop :=
  ∀ (n : String) (p : Nat) (srv : service) (id : Nat) (sa sb sa1 sb1 : Store) (va vb : Iface),
    s.find n = some (p, srv) → srv.scoped_ = true →
    srv.builder = Builder.ScopedServiceBuilder id →
    TableFrame s sa → TableFrame s sb →
    env.scopedBuilder id r sa = some (va, sa1) → env.scopedBuilder id r sb = some (vb, sb1) →
    va = vb

/-- Environment whose scoped builders resolve the singleton "clock" through the locator
(`loc.Get("clock")`) and return its number plus the request id; service builders and
handlers are those of `envCounter`. Such a builder does not return on a locator where
"clock" is not registered. -/
def envResolving : Env :=
  { serviceBuilder := envCounter.serviceBuilder
    scopedBuilder := fun _ r s =>
      match Get envCounter "clock" s with
      | Result.ret (Iface.val c) s1 _ => some (Iface.val (c + r.id), s1)
      | _ => none
    handler := fun _ _ s => some s }

/-- Store reached from `New()` by `Singleton("clock", 1)`, a first `Get("clock")` that
cached the value 7, `Scoped("requestId", 0)` and `Scoped("user", 2)`. -/
def storeResolved : Store :=
  { loc := { services := [("user", 2), ("requestId", 1), ("clock", 0)] },
    heap := [{ (Registration.Singleton "clock" 1).record with instance_ := Iface.val 7 },
             (Registration.Scoped "requestId" 0).record,
             (Registration.Scoped "user" 2).record],
    world := 8 }

/-- A `*DefaultLocator` as a program may hold it: `zero` is the zero value
`&DefaultLocator{}`, whose `services` map is nil (no record exists yet); `made s` is
a locator whose map is allocated, as `New()` returns it, in program state `s`. -/
inductive LocatorValue where
  | zero (world : Nat)
  | made (s : Store)
  deriving DecidableEq, Repr

/-- Store that the reading methods (`Get`, `GetScoped`, `Middleware`) see: a lookup in the
nil map finds nothing and `range` over it visits nothing, as for the empty map. -/
def LocatorValue.store : LocatorValue → Store
  | LocatorValue.zero world => New world
  | LocatorValue.made s => s

/-- Go `(*DefaultLocator).Transient` on any locator value: on the zero value the assignment
`loc.services[name] = ...` panics ("assignment to entry in nil map"), which is `none`. -/
def LocatorValue.Transient (name : String) (builder : Nat) :
    LocatorValue → Option LocatorValue
  | LocatorValue.zero _ => none
  | LocatorValue.made s => some (LocatorValue.made (Locator.Transient name builder s))

/-- Go `(*DefaultLocator).Scoped` on any locator value; `none` is the nil-map panic. -/
def LocatorValue.Scoped (name : String) (builder : Nat) :
    LocatorValue → Option LocatorValue
  | LocatorValue.zero _ => none
  | LocatorValue.made s => some (LocatorValue.made (Locator.Scoped name builder s))

/-- Go `(*DefaultLocator).Singleton` on any locator value; `none` is the nil-map panic. -/
def LocatorValue.Singleton (name : String) (builder : Nat) :
    LocatorValue → Option LocatorValue
  | LocatorValue.zero _ => none
  | LocatorValue.made s => some (LocatorValue.made (Locator.Singleton name builder s))

/-- A registration call on any locator value. -/
def LocatorValue.register (reg : Registration) (l : LocatorValue) : Option LocatorValue :=
  match reg with
  | Registration.Transient n b => LocatorValue.Transient n b l
  | Registration.Scoped n b => LocatorValue.Scoped n b l
  | Registration.Singleton n b => LocatorValue.Singleton n b l

/-! ## Theorems -/

theorem mapLookup_filter_ne (m : List (String × Nat)) (name k : String) (h : k ≠ name) :
    mapLookup (m.filter (fun e => !decide (e.1 = name))) k = mapLookup m k := by
  induction m with
  | nil => rfl
  | cons e rest ih =>
    obtain ⟨a, q⟩ := e
    by_cases ha : a = name
    · subst ha
      have hak : ¬ a = k := fun hk => h hk.symm
      simp [List.filter, mapLookup, hak, ih]
    · simp [List.filter, mapLookup, ha, ih]

theorem mapLookup_mapAssign_self (m : List (String × Nat)) (name : String) (p : Nat) :
    mapLookup (mapAssign m name p) name = some p := by
  simp [mapAssign, mapLookup]

theorem mapLookup_mapAssign_ne (m : List (String × Nat)) (name k : String) (p : Nat)
    (h : k ≠ name) : mapLookup (mapAssign m name p) k = mapLookup m k := by
  have hnk : ¬ name = k := fun hk => h hk.symm
  simp [mapAssign, mapLookup, hnk, mapLookup_filter_ne m name k h]

theorem getElem?_some_lt {α : Type} (l : List α) (p : Nat) (x : α) (h : l[p]? = some x) :
    p < l.length := by
  by_contra hlt
  rw [List.getElem?_eq_none (by omega)] at h
  cases h

theorem find_eq_some (s : Store) (name : String) (p : Nat) (srv : service) :
    s.find name = some (p, srv) ↔
      mapLookup s.loc.services name = some p ∧ s.heap[p]? = some srv := by
  unfold Store.find
  cases h1 : mapLookup s.loc.services name with
  | none => simp
  | some q =>
    by_cases hq : q = p
    · subst hq
      cases h2 : s.heap[q]? with
      | none => simp [h2]
      | some x => simp [h2]
    · cases h2 : s.heap[q]? with
      | none => simp [h2, hq]
      | some x => simp [h2, hq]

theorem register_find_self (s : Store) (name : String) (srv : service) :
    (s.register name srv).find name = some (s.heap.length, srv) := by
  rw [find_eq_some]
  simp [Store.register, mapLookup_mapAssign_self]

theorem register_find_ne (s : Store) (name k : String) (srv x : service) (q : Nat)
    (h : k ≠ name) (hk : s.find k = some (q, x)) :
    (s.register name srv).find k = some (q, x) := by
  rw [find_eq_some] at hk ⊢
  obtain ⟨h1, h2⟩ := hk
  have hq : q < s.heap.length := getElem?_some_lt _ _ _ h2
  refine ⟨?_, ?_⟩
  · simp [Store.register, mapLookup_mapAssign_ne _ _ _ _ h, h1]
  · simp [Store.register, List.getElem?_append_left hq, h2]

theorem setInstance_heap_self (s : Store) (p : Nat) (v : Iface) (srv : service)
    (h : s.heap[p]? = some srv) :
    (s.setInstance p v).heap[p]? = some { srv with instance_ := v } := by
  have hq : p < s.heap.length := getElem?_some_lt _ _ _ h
  simp [Store.setInstance, h, hq]

theorem setInstance_heap_ne (s : Store) (p q : Nat) (v : Iface) (h : q ≠ p) :
    (s.setInstance p v).heap[q]? = s.heap[q]? := by
  unfold Store.setInstance
  cases hp : s.heap[p]? with
  | none => rfl
  | some srv =>
    have : p ≠ q := fun e => h e.symm
    simp [List.getElem?_set_ne this]

theorem setInstance_loc (s : Store) (p : Nat) (v : Iface) :
    (s.setInstance p v).loc = s.loc := by
  unfold Store.setInstance
  cases s.heap[p]? <;> rfl

theorem Get_unknown (env : Env) (name : String) (s : Store)
    (h : mapLookup s.loc.services name = none) :
    Get env name s = Result.fatal (Fatal.couldNotFindService name) [] := by
  simp [Get, h]

theorem Get_singleton_first (env : Env) (name : String) (s s1 : Store) (p b : Nat)
    (srv srv1 : service) (v : Iface)
    (hfind : s.find name = some (p, srv)) (hsing : srv.singleton = true)
    (hnil : srv.instance_ = Iface.nil) (hb : srv.builder = Builder.ServiceBuilder b)
    (hcall : env.serviceBuilder b s = some (v, s1)) (hp : s1.heap[p]? = some srv1) :
    Get env name s = Result.ret v (s1.setInstance p v) [Invocation.service name b v] := by
  rw [find_eq_some] at hfind
  have h2 := setInstance_heap_self s1 p v srv1 hp
  simp [Get, hfind.1, hfind.2, hsing, hnil, hb, callServiceBuilder, hcall, h2]

theorem Get_singleton_cached (env : Env) (name : String) (s : Store) (p : Nat)
    (srv : service)
    (hfind : s.find name = some (p, srv)) (hsing : srv.singleton = true)
    (hval : srv.instance_ ≠ Iface.nil) :
    Get env name s = Result.ret srv.instance_ s [] := by
  rw [find_eq_some] at hfind
  simp [Get, hfind.1, hfind.2, hsing, hval]

theorem Get_transient (env : Env) (name : String) (s s1 : Store) (p b : Nat)
    (srv : service) (v : Iface)
    (hfind : s.find name = some (p, srv)) (hsing : srv.singleton = false)
    (hsc : srv.scoped_ = false) (hb : srv.builder = Builder.ServiceBuilder b)
    (hcall : env.serviceBuilder b s = some (v, s1)) :
    Get env name s = Result.ret v s1 [Invocation.service name b v] := by
  rw [find_eq_some] at hfind
  simp [Get, hfind.1, hfind.2, hsing, hsc, hb, callServiceBuilder, hcall]

theorem Get_scoped (env : Env) (name : String) (s : Store) (p : Nat) (srv : service)
    (hfind : s.find name = some (p, srv)) (hsing : srv.singleton = false)
    (hsc : srv.scoped_ = true) :
    Get env name s = Result.fatal Fatal.useGetScoped [] := by
  rw [find_eq_some] at hfind
  simp [Get, hfind.1, hfind.2, hsing, hsc]

theorem GetRepeat_cached (env : Env) (name : String) (s : Store) (p : Nat) (srv : service)
    (hfind : s.find name = some (p, srv)) (hsing : srv.singleton = true)
    (hval : srv.instance_ ≠ Iface.nil) (k : Nat) :
    GetRepeat env name k s = some (List.replicate k srv.instance_, s, []) := by
  induction k with
  | zero => rfl
  | succ k ih =>
    simp [GetRepeat, Get_singleton_cached env name s p srv hfind hsing hval, ih,
      List.replicate_succ]

/-- C1 (as stated) fails: a singleton builder that returns the nil interface is invoked by
every `Get`, because `Get` tests `srv.instance == nil` to decide whether to build. Two calls
`Get("db")` after `Singleton("db", b)` invoke `b` twice. -/
theorem singleton_nil_builder_invoked_twice :
    GetRepeat envNil "db" 2 (Singleton "db" 0 (New 0)) =
      some ([Iface.nil, Iface.nil],
        { loc := { services := [("db", 0)] },
          heap := [{ builder := Builder.ServiceBuilder 0, singleton := true, scoped_ := false,
                     instance_ := Iface.nil }],
          world := 2 },
        [Invocation.service "db" 0 Iface.nil, Invocation.service "db" 0 Iface.nil]) := by
  decide

/-- C1 (amended): let `name` be bound to the record made by `Singleton(name, b)`, let the
first invocation of `b` return a non-nil value `v` and leave that registration in place.
Then `k ≥ 1` consecutive calls `Get(name)` all return `v`, and `b` is invoked exactly once
in total, by the first call, which stores `v` in the record. -/
theorem singleton_memoization (env : Env) (name : String) (s s1 : Store) (p b k : Nat)
    (v : Iface)
    (hfind : s.find name = some (p, (Registration.Singleton name b).record))
    (hcall : env.serviceBuilder b s = some (v, s1))
    (hv : v ≠ Iface.nil)
    (hkeep : s1.find name = some (p, (Registration.Singleton name b).record))
    (hk : 1 ≤ k) :
    GetRepeat env name k s =
      some (List.replicate k v, s1.setInstance p v, [Invocation.service name b v]) ∧
    (s1.setInstance p v).find name =
      some (p, { (Registration.Singleton name b).record with instance_ := v }) := by
  obtain ⟨j, rfl⟩ : ∃ j, k = j + 1 := ⟨k - 1, by omega⟩
  have hk1 := (find_eq_some _ _ _ _).1 hkeep
  have hfirst := Get_singleton_first env name s s1 p b _ _ v hfind rfl rfl rfl hcall hk1.2
  have hcached : (s1.setInstance p v).find name =
      some (p, { (Registration.Singleton name b).record with instance_ := v }) := by
    rw [find_eq_some]
    exact ⟨by rw [setInstance_loc]; exact hk1.1, setInstance_heap_self s1 p v _ hk1.2⟩
  have hrest := GetRepeat_cached env name _ p _ hcached rfl hv j
  refine ⟨?_, hcached⟩
  simp only [GetRepeat, hfirst, hrest]
  simp [List.replicate_succ]

theorem singleton_memoization_witness :
    GetRepeat envCounter "db" 3 (Singleton "db" 0 (New 7)) =
      some (List.replicate 3 (Iface.val 7),
        ({ (Singleton "db" 0 (New 7)) with world := 8 } : Store).setInstance 0 (Iface.val 7),
        [Invocation.service "db" 0 (Iface.val 7)]) ∧
    (({ (Singleton "db" 0 (New 7)) with world := 8 } : Store).setInstance 0
        (Iface.val 7)).find "db" =
      some (0, { (Registration.Singleton "db" 0).record with instance_ := Iface.val 7 }) :=
  singleton_memoization envCounter "db" (Singleton "db" 0 (New 7))
    { (Singleton "db" 0 (New 7)) with world := 8 } 0 0 3 (Iface.val 7)
    (by decide) (by decide) (by decide) (by decide) (by decide)

/-- C2: let `name` be bound to the record made by `Transient(name, b)`. A call `Get(name)`
invokes `b` exactly once and returns the value of that invocation, and the store after
the call is exactly the store `b` left: `Get` caches nothing and changes neither the table
nor any record. When `b` leaves the registration in place, a second call invokes `b`
again, so two consecutive calls invoke `b` twice. -/
theorem transient_freshness (env : Env) (name : String) (s s1 s2 : Store) (p b : Nat)
    (v1 v2 : Iface)
    (hfind : s.find name = some (p, (Registration.Transient name b).record))
    (hcall1 : env.serviceBuilder b s = some (v1, s1))
    (hkeep : s1.find name = some (p, (Registration.Transient name b).record))
    (hcall2 : env.serviceBuilder b s1 = some (v2, s2)) :
    Get env name s = Result.ret v1 s1 [Invocation.service name b v1] ∧
    Get env name s1 = Result.ret v2 s2 [Invocation.service name b v2] ∧
    GetRepeat env name 2 s =
      some ([v1, v2], s2, [Invocation.service name b v1, Invocation.service name b v2]) := by
  have h1 := Get_transient env name s s1 p b _ v1 hfind rfl rfl rfl hcall1
  have h2 := Get_transient env name s1 s2 p b _ v2 hkeep rfl rfl rfl hcall2
  refine ⟨h1, h2, ?_⟩
  simp [GetRepeat, h1, h2]

theorem transient_freshness_witness :
    Get envCounter "greeting" (Transient "greeting" 0 (New 7)) =
      Result.ret (Iface.val 7) { (Transient "greeting" 0 (New 7)) with world := 8 }
        [Invocation.service "greeting" 0 (Iface.val 7)] ∧
    Get envCounter "greeting" { (Transient "greeting" 0 (New 7)) with world := 8 } =
      Result.ret (Iface.val 8) { (Transient "greeting" 0 (New 7)) with world := 9 }
        [Invocation.service "greeting" 0 (Iface.val 8)] ∧
    GetRepeat envCounter "greeting" 2 (Transient "greeting" 0 (New 7)) =
      some ([Iface.val 7, Iface.val 8], { (Transient "greeting" 0 (New 7)) with world := 9 },
        [Invocation.service "greeting" 0 (Iface.val 7),
         Invocation.service "greeting" 0 (Iface.val 8)]) :=
  transient_freshness envCounter "greeting" (Transient "greeting" 0 (New 7))
    { (Transient "greeting" 0 (New 7)) with world := 8 }
    { (Transient "greeting" 0 (New 7)) with world := 9 } 0 0 (Iface.val 7) (Iface.val 8)
    (by decide) (by decide) (by decide) (by decide)

/-- C4 (as stated) fails: `GetScoped` on a scoped name returns `ctx.Value(name)`, which is
the nil interface when the context holds nothing under the name. It does not end with a
fatal error. -/
theorem GetScoped_absent_returns_nil :
    GetScoped [] "requestId" (Scoped "requestId" 0 (New 0)) =
      Result.ret Iface.nil (Scoped "requestId" 0 (New 0)) [] := by
  decide

/-- C4 (amended): for a name whose record is scoped and a context that holds no value
under the name (`ctx.Value(name)` is nil), `GetScoped(ctx, name)` returns the nil interface,
leaves the store unchanged and invokes no builder. -/
theorem GetScoped_absent (ctx : Context) (name : String) (s : Store) (p : Nat) (srv : service)
    (hfind : s.find name = some (p, srv)) (hsc : srv.scoped_ = true)
    (habsent : ctx.Value (CtxKey.str name) = Iface.nil) :
    GetScoped ctx name s = Result.ret Iface.nil s [] := by
  rw [find_eq_some] at hfind
  simp [GetScoped, hfind.1, hfind.2, hsc, habsent]

theorem GetScoped_absent_witness :
    GetScoped [(CtxKey.str "other", Iface.val 1)] "requestId" (Scoped "requestId" 0 (New 0)) =
      Result.ret Iface.nil (Scoped "requestId" 0 (New 0)) [] :=
  GetScoped_absent [(CtxKey.str "other", Iface.val 1)] "requestId"
    (Scoped "requestId" 0 (New 0)) 0 (Registration.Scoped "requestId" 0).record
    (by decide) (by decide) (by decide)

theorem apply_eq_register (reg : Registration) (s : Store) :
    reg.apply s = s.register reg.name reg.record := by
  cases reg <;> rfl

theorem apply_find_self (reg : Registration) (s : Store) :
    (reg.apply s).find reg.name = some (s.heap.length, reg.record) := by
  rw [apply_eq_register]
  exact register_find_self s reg.name reg.record

theorem apply_find_ne (reg : Registration) (s : Store) (k : String) (q : Nat) (x : service)
    (h : k ≠ reg.name) (hk : s.find k = some (q, x)) :
    (reg.apply s).find k = some (q, x) := by
  rw [apply_eq_register]
  exact register_find_ne s reg.name k reg.record x q h hk

theorem registerAll_find_ne (regs : List Registration) (k : String) :
    ∀ (s : Store) (q : Nat) (x : service), (∀ reg ∈ regs, reg.name ≠ k) →
      s.find k = some (q, x) → (registerAll regs s).find k = some (q, x) := by
  induction regs with
  | nil =>
    intro s q x _ hk
    exact hk
  | cons reg rest ih =>
    intro s q x hne hk
    have h1 : k ≠ reg.name := fun e => hne reg (List.mem_cons_self _ _) e.symm
    have h2 := apply_find_ne reg s k q x h1 hk
    exact ih (reg.apply s) q x (fun r hr => hne r (List.mem_cons_of_mem _ hr)) h2

theorem registerAll_append (xs ys : List Registration) (s : Store) :
    registerAll (xs ++ ys) s = registerAll ys (registerAll xs s) := by
  simp [registerAll, List.foldl_append]

/-- C5: on a locator built from `New()` by registration calls, where the last registration
under `name` is `Scoped(name, b)`, the call `Get(name)` ends in the fatal error
"use GetScoped to get scoped services" (condition WrongAccessPattern); it returns no value
and no builder has been invoked. -/
theorem Get_scoped_wrong_access (env : Env) (world : Nat) (before after : List Registration)
    (name : String) (b : Nat)
    (hlast : ∀ reg ∈ after, reg.name ≠ name) :
    Get env name (registerAll (before ++ Registration.Scoped name b :: after) (New world)) =
      Result.fatal Fatal.useGetScoped [] ∧
    Fatal.condition Fatal.useGetScoped = Condition.WrongAccessPattern := by
  refine ⟨?_, rfl⟩
  rw [registerAll_append]
  have h1 := apply_find_self (Registration.Scoped name b) (registerAll before (New world))
  have h2 := registerAll_find_ne after name _ _ _ hlast h1
  have h3 : registerAll (Registration.Scoped name b :: after) (registerAll before (New world))
      = registerAll after ((Registration.Scoped name b).apply (registerAll before (New world))) :=
    rfl
  rw [h3]
  exact Get_scoped env name _ _ _ h2 rfl rfl

theorem Get_scoped_wrong_access_witness :
    Get envCounter "requestId"
      (registerAll ([Registration.Singleton "requestId" 1] ++
        Registration.Scoped "requestId" 0 :: [Registration.Transient "greeting" 2]) (New 0)) =
      Result.fatal Fatal.useGetScoped [] ∧
    Fatal.condition Fatal.useGetScoped = Condition.WrongAccessPattern :=
  Get_scoped_wrong_access envCounter 0 [Registration.Singleton "requestId" 1]
    [Registration.Transient "greeting" 2] "requestId" 0 (by decide)

theorem GetScoped_not_scoped (ctx : Context) (name : String) (s : Store) (p : Nat)
    (srv : service) (hfind : s.find name = some (p, srv)) (hsc : srv.scoped_ = false) :
    GetScoped ctx name s = Result.fatal Fatal.getScopedOnlyForScoped [] := by
  rw [find_eq_some] at hfind
  simp [GetScoped, hfind.1, hfind.2, hsc]

/-- C6: for every store, every context (whatever it carries) and every name bound to
a record whose builder and flags are those written by `Transient` or `Singleton` (scoped
flag unset, any state of the cache slot), `GetScoped(ctx, name)` ends in the fatal error
"GetScoped should be used only for Scoped services" (condition WrongAccessPattern), with no
value returned and no builder invoked. In particular this holds right after
`Transient(name, b)` and right after `Singleton(name, b)`. -/
theorem GetScoped_wrong_access (ctx : Context) (name : String) (b : Nat) (s : Store) :
    (∀ (p : Nat) (srv : service), s.find name = some (p, srv) →
      srv.builder = Builder.ServiceBuilder b → srv.scoped_ = false →
      GetScoped ctx name s = Result.fatal Fatal.getScopedOnlyForScoped []) ∧
    GetScoped ctx name (Transient name b s) = Result.fatal Fatal.getScopedOnlyForScoped [] ∧
    GetScoped ctx name (Singleton name b s) = Result.fatal Fatal.getScopedOnlyForScoped [] ∧
    Fatal.condition Fatal.getScopedOnlyForScoped = Condition.WrongAccessPattern := by
  refine ⟨?_, ?_, ?_, rfl⟩
  · intro p srv hfind _ hsc
    exact GetScoped_not_scoped ctx name s p srv hfind hsc
  · exact GetScoped_not_scoped ctx name _ _ _
      (apply_find_self (Registration.Transient name b) s) rfl
  · exact GetScoped_not_scoped ctx name _ _ _
      (apply_find_self (Registration.Singleton name b) s) rfl

theorem GetScoped_wrong_access_witness :
    GetScoped [(CtxKey.str "clock", Iface.val 5)] "clock"
      (({ (Singleton "clock" 0 (New 7)) with world := 8 } : Store).setInstance 0
        (Iface.val 7)) =
      Result.fatal Fatal.getScopedOnlyForScoped [] :=
  (GetScoped_wrong_access [(CtxKey.str "clock", Iface.val 5)] "clock" 0
    (({ (Singleton "clock" 0 (New 7)) with world := 8 } : Store).setInstance 0
      (Iface.val 7))).1 0
    { (Registration.Singleton "clock" 0).record with instance_ := Iface.val 7 }
    (by decide) (by decide) (by decide)

/-- C7: for every store and every name with no entry in `loc.services`, `Get(name)` ends in
the fatal error "could not find service" (condition NotFound), with no value returned and no
builder invoked; this is the case for every name on the locator returned by `New()`. -/
theorem Get_unknown_name (env : Env) (name : String) (world : Nat) :
    (∀ s : Store, mapLookup s.loc.services name = none →
      Get env name s = Result.fatal (Fatal.couldNotFindService name) []) ∧
    Get env name (New world) = Result.fatal (Fatal.couldNotFindService name) [] ∧
    Fatal.condition (Fatal.couldNotFindService name) = Condition.NotFound := by
  refine ⟨fun s h => Get_unknown env name s h, Get_unknown env name (New world) rfl, rfl⟩

theorem Get_unknown_name_witness :
    Get envCounter "nope" (Transient "greeting" 0 (New 0)) =
      Result.fatal (Fatal.couldNotFindService "nope") [] :=
  (Get_unknown_name envCounter "nope" 0).1 (Transient "greeting" 0 (New 0)) (by decide)

theorem filter_key_filter_ne (m : List (String × Nat)) (name : String) :
    (m.filter (fun e => !decide (e.1 = name))).filter (fun e => decide (e.1 = name)) = [] := by
  induction m with
  | nil => rfl
  | cons e rest ih =>
    by_cases ha : e.1 = name
    · simp [List.filter, ha, ih]
    · simp [List.filter, ha, ih]

theorem mapAssign_one_entry (m : List (String × Nat)) (name : String) (p : Nat) :
    ((mapAssign m name p).filter (fun e => decide (e.1 = name))).length = 1 := by
  have h := filter_key_filter_ne m name
  simp only [mapAssign, List.filter_cons, decide_True, if_true, List.length_cons, h,
    List.length_nil]

theorem GetScoped_scoped (ctx : Context) (name : String) (s : Store) (p : Nat) (srv : service)
    (hfind : s.find name = some (p, srv)) (hsc : srv.scoped_ = true) :
    GetScoped ctx name s = Result.ret (ctx.Value (CtxKey.str name)) s [] := by
  rw [find_eq_some] at hfind
  simp [GetScoped, hfind.1, hfind.2, hsc]

/-- C8 (amended): on a locator whose map is allocated (every locator made by `New()`),
let a registration `first` be made under a name, then any operations that return, then
a registration `second` under the same name. Both calls return; after `second` the table holds
exactly one entry for the name; it points to a new record with the builder and flags of
`second` and an empty cache slot; `Get` and `GetScoped` on the name follow `second` alone
(a transient or singleton is built by the builder of `second`, a scoped name is refused by
`Get` and read from the context by `GetScoped`); and neither registration changes the
entry or the record of any other name. -/
theorem last_write_wins (env : Env) (s0 s : Store) (first second : Registration)
    (ops : List Op) (hname : first.name = second.name)
    (hrun : run env ops (first.apply s0) = some s) :
    ((second.apply s).loc.services.filter (fun e => decide (e.1 = second.name))).length = 1 ∧
    (second.apply s).find second.name = some (s.heap.length, second.record) ∧
    second.record.instance_ = Iface.nil ∧
    (match second with
      | Registration.Transient n b =>
        (∀ v s3, env.serviceBuilder b (Transient n b s) = some (v, s3) →
          Get env n (Transient n b s) = Result.ret v s3 [Invocation.service n b v]) ∧
        (∀ ctx, GetScoped ctx n (Transient n b s) =
          Result.fatal Fatal.getScopedOnlyForScoped [])
      | Registration.Singleton n b =>
        (∀ v s3 srv3, env.serviceBuilder b (Singleton n b s) = some (v, s3) →
          s3.heap[s.heap.length]? = some srv3 →
          Get env n (Singleton n b s) =
            Result.ret v (s3.setInstance s.heap.length v) [Invocation.service n b v]) ∧
        (∀ ctx, GetScoped ctx n (Singleton n b s) =
          Result.fatal Fatal.getScopedOnlyForScoped [])
      | Registration.Scoped n b =>
        Get env n (Scoped n b s) = Result.fatal Fatal.useGetScoped [] ∧
        (∀ ctx, GetScoped ctx n (Scoped n b s) =
          Result.ret (ctx.Value (CtxKey.str n)) (Scoped n b s) [])) ∧
    (∀ m, m ≠ second.name →
      mapLookup (second.apply s).loc.services m = mapLookup s.loc.services m ∧
      mapLookup (first.apply s0).loc.services m = mapLookup s0.loc.services m) ∧
    (∀ m q srv, m ≠ second.name →
      (s.find m = some (q, srv) → (second.apply s).find m = some (q, srv)) ∧
      (s0.find m = some (q, srv) → (first.apply s0).find m = some (q, srv))) ∧
    (LocatorValue.register first (LocatorValue.made s0) =
        some (LocatorValue.made (first.apply s0)) ∧
      LocatorValue.register second (LocatorValue.made s) =
        some (LocatorValue.made (second.apply s))) := by
  have _ := hrun
  refine ⟨?_, apply_find_self second s, ?_, ?_, ?_, ?_, ?_⟩
  rotate_right
  · constructor
    · cases first <;> rfl
    · cases second <;> rfl
  · rw [apply_eq_register]
    exact mapAssign_one_entry s.loc.services second.name s.heap.length
  · cases second <;> rfl
  · cases second with
    | Transient n b =>
      have hf := apply_find_self (Registration.Transient n b) s
      exact ⟨fun v s3 hcall => Get_transient env n _ s3 _ b _ v hf rfl rfl rfl hcall,
        fun ctx => GetScoped_not_scoped ctx n _ _ _ hf rfl⟩
    | Singleton n b =>
      have hf := apply_find_self (Registration.Singleton n b) s
      exact ⟨fun v s3 srv3 hcall hp =>
          Get_singleton_first env n _ s3 _ b _ srv3 v hf rfl rfl rfl hcall hp,
        fun ctx => GetScoped_not_scoped ctx n _ _ _ hf rfl⟩
    | Scoped n b =>
      have hf := apply_find_self (Registration.Scoped n b) s
      exact ⟨Get_scoped env n _ _ _ hf rfl rfl, fun ctx => GetScoped_scoped ctx n _ _ _ hf rfl⟩
  · intro m hm
    have hm1 : m ≠ first.name := by rw [hname]; exact hm
    constructor
    · rw [apply_eq_register]
      exact mapLookup_mapAssign_ne _ _ _ _ hm
    · rw [apply_eq_register]
      exact mapLookup_mapAssign_ne _ _ _ _ hm1
  · intro m q srv hm
    have hm1 : m ≠ first.name := by rw [hname]; exact hm
    exact ⟨fun h => apply_find_ne second s m q srv hm h,
      fun h => apply_find_ne first s0 m q srv hm1 h⟩

theorem last_write_wins_witness :
    (Get envCounter "db" (Singleton "db" 1
        (({ (Singleton "db" 0 (Transient "greeting" 2 (New 7))) with world := 8 } :
          Store).setInstance 1 (Iface.val 7))) =
      Result.ret (Iface.val 8)
        (({ (Singleton "db" 1
          (({ (Singleton "db" 0 (Transient "greeting" 2 (New 7))) with world := 8 } :
            Store).setInstance 1 (Iface.val 7))) with world := 9 } : Store).setInstance 2
            (Iface.val 8))
        [Invocation.service "db" 1 (Iface.val 8)]) :=
  (last_write_wins envCounter (Transient "greeting" 2 (New 7))
    (({ (Singleton "db" 0 (Transient "greeting" 2 (New 7))) with world := 8 } :
      Store).setInstance 1 (Iface.val 7))
    (Registration.Singleton "db" 0) (Registration.Singleton "db" 1) [Op.Get "db"]
    rfl (by decide)).2.2.2.1.1 (Iface.val 8) _
      { (Registration.Singleton "db" 1).record with instance_ := Iface.nil }
      (by decide) (by decide)

theorem TableFrame_refl (s : Store) : TableFrame s s :=
  ⟨rfl, rfl, fun _ srv h => ⟨srv, h, rfl, rfl, rfl, Or.inl rfl⟩⟩

theorem TableFrame_of_eq (s s1 : Store) (hloc : s1.loc = s.loc) (hheap : s1.heap = s.heap) :
    TableFrame s s1 :=
  ⟨hloc, by rw [hheap], fun _ srv h => ⟨srv, by rw [hheap]; exact h, rfl, rfl, rfl, Or.inl rfl⟩⟩

theorem TableFrame_trans (s s1 s2 : Store) (h1 : TableFrame s s1) (h2 : TableFrame s1 s2) :
    TableFrame s s2 := by
  obtain ⟨hl1, hn1, hr1⟩ := h1
  obtain ⟨hl2, hn2, hr2⟩ := h2
  refine ⟨hl2.trans hl1, hn2.trans hn1, ?_⟩
  intro p srv hp
  obtain ⟨srv1, hp1, hb1, hs1, hc1, hi1⟩ := hr1 p srv hp
  obtain ⟨srv2, hp2, hb2, hs2, hc2, hi2⟩ := hr2 p srv1 hp1
  refine ⟨srv2, hp2, hb2.trans hb1, hs2.trans hs1, hc2.trans hc1, ?_⟩
  rcases hi1 with hi1 | hi1
  · rcases hi2 with hi2 | hi2
    · exact Or.inl (hi2.trans hi1)
    · exact Or.inr ⟨by rw [← hs1]; exact hi2.1, by rw [← hi1]; exact hi2.2⟩
  · exact Or.inr hi1

theorem TableFrame_setInstance (s s1 : Store) (p : Nat) (v : Iface) (srv : service)
    (h : TableFrame s s1) (hp : s.heap[p]? = some srv) (hsing : srv.singleton = true)
    (hnil : srv.instance_ = Iface.nil) : TableFrame s (s1.setInstance p v) := by
  obtain ⟨hl, hn, hr⟩ := h
  obtain ⟨srvp, hpp, hbp, hsp, hcp, _⟩ := hr p srv hp
  refine ⟨by rw [setInstance_loc]; exact hl, ?_, ?_⟩
  · simp [Store.setInstance, hpp, hn]
  · intro q x hq
    by_cases hqp : q = p
    · subst hqp
      rw [hp] at hq
      have hx : srv = x := Option.some.inj hq
      subst hx
      exact ⟨_, setInstance_heap_self s1 q v srvp hpp, hbp, hsp, hcp, Or.inr ⟨hsing, hnil⟩⟩
    · rw [setInstance_heap_ne s1 p q v hqp]
      exact hr q x hq

/-- Inversion of `Get`: a call that returns took one of three paths. -/
theorem Get_ret_inv (env : Env) (name : String) (s s1 : Store) (v : Iface)
    (tr : List Invocation) (h : Get env name s = Result.ret v s1 tr) :
    ∃ p srv, mapLookup s.loc.services name = some p ∧ s.heap[p]? = some srv ∧
      ((srv.singleton = true ∧ srv.instance_ ≠ Iface.nil ∧ v = srv.instance_ ∧ s1 = s ∧
          tr = []) ∨
       (srv.singleton = true ∧ srv.instance_ = Iface.nil ∧
          ∃ id w sb srv2, srv.builder = Builder.ServiceBuilder id ∧
            env.serviceBuilder id s = some (w, sb) ∧ s1 = sb.setInstance p w ∧
            tr = [Invocation.service name id w] ∧ s1.heap[p]? = some srv2 ∧
            v = srv2.instance_) ∨
       (srv.singleton = false ∧ srv.scoped_ = false ∧
          ∃ id, srv.builder = Builder.ServiceBuilder id ∧
            env.serviceBuilder id s = some (v, s1) ∧ tr = [Invocation.service name id v])) := by
  cases hl : mapLookup s.loc.services name with
  | none => simp [Get, hl] at h
  | some p =>
    cases hh : s.heap[p]? with
    | none => simp [Get, hl, hh] at h
    | some srv =>
      refine ⟨p, srv, rfl, hh, ?_⟩
      cases hsing : srv.singleton with
      | true =>
        by_cases hnil : srv.instance_ = Iface.nil
        · right; left
          refine ⟨rfl, hnil, ?_⟩
          cases hb : srv.builder with
          | ScopedServiceBuilder id =>
            simp [Get, hl, hh, hsing, hnil, hb, callServiceBuilder] at h
          | ServiceBuilder id =>
            cases hc : env.serviceBuilder id s with
            | none => simp [Get, hl, hh, hsing, hnil, hb, callServiceBuilder, hc] at h
            | some res =>
              obtain ⟨w, sb⟩ := res
              cases h2 : (sb.setInstance p w).heap[p]? with
              | none => simp [Get, hl, hh, hsing, hnil, hb, callServiceBuilder, hc, h2] at h
              | some srv2 =>
                simp [Get, hl, hh, hsing, hnil, hb, callServiceBuilder, hc, h2] at h
                obtain ⟨h3, h4, h5⟩ := h
                subst h4
                exact ⟨id, w, sb, srv2, rfl, hc, rfl, h5.symm, h2, h3.symm⟩
        · left
          simp [Get, hl, hh, hsing, hnil] at h
          obtain ⟨h3, h4, h5⟩ := h
          exact ⟨rfl, hnil, h3.symm, h4.symm, h5⟩
      | false =>
        right; right
        cases hsc : srv.scoped_ with
        | true => simp [Get, hl, hh, hsing, hsc] at h
        | false =>
          refine ⟨rfl, rfl, ?_⟩
          cases hb : srv.builder with
          | ScopedServiceBuilder id =>
            simp [Get, hl, hh, hsing, hsc, hb, callServiceBuilder] at h
          | ServiceBuilder id =>
            cases hc : env.serviceBuilder id s with
            | none => simp [Get, hl, hh, hsing, hsc, hb, callServiceBuilder, hc] at h
            | some res =>
              obtain ⟨w, sb⟩ := res
              simp [Get, hl, hh, hsing, hsc, hb, callServiceBuilder, hc] at h
              obtain ⟨h3, h4, h5⟩ := h
              subst h3
              subst h4
              exact ⟨id, rfl, hc, h5.symm⟩

theorem Get_frame (env : Env) (hresp : env.respects TableFrame) (name : String)
    (s s1 : Store) (v : Iface) (tr : List Invocation)
    (h : Get env name s = Result.ret v s1 tr) : TableFrame s s1 := by
  obtain ⟨p, srv, _, hh, hcase⟩ := Get_ret_inv env name s s1 v tr h
  rcases hcase with ⟨_, _, _, hs, _⟩ | ⟨hsing, hnil, id, w, sb, _, _, hc, hs, _, _, _⟩ |
    ⟨_, _, id, _, hc, _⟩
  · rw [hs]
    exact TableFrame_refl s
  · rw [hs]
    exact TableFrame_setInstance s sb p w srv (hresp.1 id s w sb hc) hh hsing hnil
  · exact hresp.1 id s v s1 hc

theorem rangeServices_nil (env : Env) (r : Request) (ctx : Context) (s : Store) :
    rangeServices env r [] ctx s = LoopResult.done ctx s [] := rfl

theorem rangeServices_skip_unbound (env : Env) (r : Request) (name : String)
    (rest : List String) (ctx : Context) (s : Store)
    (h : mapLookup s.loc.services name = none) :
    rangeServices env r (name :: rest) ctx s = rangeServices env r rest ctx s := by
  simp [rangeServices, h]

theorem rangeServices_skip_unscoped (env : Env) (r : Request) (name : String)
    (rest : List String) (ctx : Context) (s : Store) (p : Nat) (srv : service)
    (h : mapLookup s.loc.services name = some p) (hh : s.heap[p]? = some srv)
    (hsc : srv.scoped_ = false) :
    rangeServices env r (name :: rest) ctx s = rangeServices env r rest ctx s := by
  simp [rangeServices, h, hh, hsc]

theorem rangeServices_build (env : Env) (r : Request) (name : String)
    (rest : List String) (ctx : Context) (s sb : Store) (p id : Nat) (srv : service)
    (v : Iface)
    (h : mapLookup s.loc.services name = some p) (hh : s.heap[p]? = some srv)
    (hsc : srv.scoped_ = true) (hb : srv.builder = Builder.ScopedServiceBuilder id)
    (hc : env.scopedBuilder id r s = some (v, sb)) :
    rangeServices env r (name :: rest) ctx s =
      match rangeServices env r rest (WithValue ctx (CtxKey.str name) v) sb with
      | LoopResult.done c s2 tr =>
        LoopResult.done c s2 (Invocation.scopedService name id r v :: tr)
      | other => other := by
  simp [rangeServices, h, hh, hsc, hb, hc]

theorem rangeServices_frame (env : Env) (hresp : env.respects TableFrame) (r : Request) :
    ∀ (order : List String) (ctx c : Context) (s s1 : Store) (tr : List Invocation),
      rangeServices env r order ctx s = LoopResult.done c s1 tr → TableFrame s s1 := by
  intro order
  induction order with
  | nil =>
    intro ctx c s s1 tr h
    simp only [rangeServices_nil, LoopResult.done.injEq] at h
    rw [← h.2.1]
    exact TableFrame_refl s
  | cons name rest ih =>
    intro ctx c s s1 tr h
    cases hl : mapLookup s.loc.services name with
    | none =>
      rw [rangeServices_skip_unbound env r name rest ctx s hl] at h
      exact ih ctx c s s1 tr h
    | some p =>
      cases hh : s.heap[p]? with
      | none => simp [rangeServices, hl, hh] at h
      | some srv =>
        cases hsc : srv.scoped_ with
        | false =>
          rw [rangeServices_skip_unscoped env r name rest ctx s p srv hl hh hsc] at h
          exact ih ctx c s s1 tr h
        | true =>
          cases hb : srv.builder with
          | ServiceBuilder id => simp [rangeServices, hl, hh, hsc, hb] at h
          | ScopedServiceBuilder id =>
            cases hc : env.scopedBuilder id r s with
            | none => simp [rangeServices, hl, hh, hsc, hb, hc] at h
            | some res =>
              obtain ⟨v, sb⟩ := res
              rw [rangeServices_build env r name rest ctx s sb p id srv v hl hh hsc hb hc] at h
              cases hrec : rangeServices env r rest (WithValue ctx (CtxKey.str name) v) sb with
              | noReturn => simp [hrec] at h
              | panic => simp [hrec] at h
              | done c2 s2 tr2 =>
                simp only [hrec, LoopResult.done.injEq] at h
                rw [← h.2.1]
                exact TableFrame_trans s sb s2 (hresp.2.1 id r s v sb hc)
                  (ih _ c2 sb s2 tr2 hrec)

theorem Middleware_frame (env : Env) (hresp : env.respects TableFrame) (order : List String)
    (next : Nat) (r passed : Request) (s s1 : Store) (tr : List Invocation)
    (h : Middleware env order next r s = ServeResult.served passed s1 tr) :
    TableFrame s s1 := by
  unfold Middleware at h
  cases hloop : rangeServices env r order r.Context s with
  | noReturn => simp [hloop] at h
  | panic => simp [hloop] at h
  | done c s2 tr2 =>
    cases hn : env.handler next (r.WithContext c) s2 with
    | none => simp [hloop, hn] at h
    | some s3 =>
      simp only [hloop, hn, ServeResult.served.injEq] at h
      rw [← h.2.1]
      exact TableFrame_trans s s2 s3 (rangeServices_frame env hresp r order _ c s s2 tr2 hloop)
        (hresp.2.2 next _ s2 s3 hn)

theorem GetScoped_store (ctx : Context) (name : String) (s s1 : Store) (v : Iface)
    (tr : List Invocation) (h : GetScoped ctx name s = Result.ret v s1 tr) :
    s1 = s ∧ tr = [] := by
  unfold GetScoped at h
  split at h
  · cases h
  · split at h
    · cases h
    · split at h
      · cases h
      · simp only [Result.ret.injEq] at h
        exact ⟨h.2.1.symm, h.2.2.symm⟩

/-- C10: when no builder or handler of the environment makes a registration (each leaves
the map, the set of records and every record's builder and flags as they were, and fills
cache slots only of singletons whose slot was empty), every call of `Get`, `GetScoped` or
the handler returned by `Middleware` that returns leaves the same set of registered names,
the same records with the same builder and flags; a cache slot differs after the call only
if it belongs to a singleton record and was empty before. `GetScoped` leaves the whole store
unchanged. -/
theorem resolution_preserves_table (env : Env) (hresp : env.respects TableFrame) :
    (∀ name s v s1 tr, Get env name s = Result.ret v s1 tr → TableFrame s s1) ∧
    (∀ ctx name s v s1 tr, GetScoped ctx name s = Result.ret v s1 tr → s1 = s) ∧
    (∀ order next r s passed s1 tr,
      Middleware env order next r s = ServeResult.served passed s1 tr → TableFrame s s1) :=
  ⟨fun name s v s1 tr h => Get_frame env hresp name s s1 v tr h,
    fun ctx name s v s1 tr h => (GetScoped_store ctx name s s1 v tr h).1,
    fun order next r s passed s1 tr h => Middleware_frame env hresp order next r passed s s1 tr h⟩

theorem envCounter_respects : envCounter.respects TableFrame := by
  refine ⟨?_, ?_, ?_⟩
  · intro b s v s1 h
    simp only [envCounter, Option.some.injEq, Prod.mk.injEq] at h
    rw [← h.2]
    exact TableFrame_of_eq _ _ rfl rfl
  · intro b r s v s1 h
    simp only [envCounter, Option.some.injEq, Prod.mk.injEq] at h
    rw [← h.2]
    exact TableFrame_refl s
  · intro b r s s1 h
    simp only [envCounter, Option.some.injEq] at h
    rw [← h]
    exact TableFrame_refl s

theorem resolution_preserves_table_witness :
    TableFrame (Singleton "clock" 0 (New 7))
      (({ (Singleton "clock" 0 (New 7)) with world := 8 } : Store).setInstance 0
        (Iface.val 7)) :=
  (resolution_preserves_table envCounter envCounter_respects).1 "clock"
    (Singleton "clock" 0 (New 7)) (Iface.val 7) _ [Invocation.service "clock" 0 (Iface.val 7)]
    (by decide)

theorem TableFrame_find (s s1 : Store) (h : TableFrame s s1) (n : String) (p : Nat)
    (srv : service) (hf : s.find n = some (p, srv)) :
    ∃ srv1, s1.find n = some (p, srv1) ∧ srv1.builder = srv.builder ∧
      srv1.singleton = srv.singleton ∧ srv1.scoped_ = srv.scoped_ := by
  rw [find_eq_some] at hf
  obtain ⟨srv1, h1, hb, hs, hc, _⟩ := h.2.2 p srv hf.2
  refine ⟨srv1, ?_, hb, hs, hc⟩
  rw [find_eq_some, h.1]
  exact ⟨hf.1, h1⟩

theorem TableFrame_find_back (s s1 : Store) (h : TableFrame s s1) (n : String) (p : Nat)
    (srv1 : service) (hf : s1.find n = some (p, srv1)) :
    ∃ srv, s.find n = some (p, srv) ∧ srv1.builder = srv.builder ∧
      srv1.singleton = srv.singleton ∧ srv1.scoped_ = srv.scoped_ := by
  rw [find_eq_some] at hf
  have hlt : p < s.heap.length := by
    rw [← h.2.1]
    exact getElem?_some_lt _ _ _ hf.2
  obtain ⟨srv, hsrv⟩ : ∃ srv, s.heap[p]? = some srv :=
    ⟨s.heap[p], List.getElem?_eq_getElem hlt⟩
  obtain ⟨srv2, h2, hb, hs, hc, _⟩ := h.2.2 p srv hsrv
  rw [hf.2] at h2
  have he : srv1 = srv2 := Option.some.inj h2
  subst he
  refine ⟨srv, ?_, hb, hs, hc⟩
  rw [find_eq_some, ← h.1]
  exact ⟨hf.1, hsrv⟩

theorem TableFrame_isScopedName (s s1 : Store) (h : TableFrame s s1) (n : String) :
    s1.isScopedName n ↔ s.isScopedName n := by
  constructor
  · rintro ⟨p, srv1, hf, hsc⟩
    obtain ⟨srv, hf0, _, _, hc⟩ := TableFrame_find_back s s1 h n p srv1 hf
    exact ⟨p, srv, hf0, by rw [← hc]; exact hsc⟩
  · rintro ⟨p, srv, hf, hsc⟩
    obtain ⟨srv1, hf1, _, _, hc⟩ := TableFrame_find s s1 h n p srv hf
    exact ⟨p, srv1, hf1, by rw [hc]; exact hsc⟩

theorem TableFrame_sound (s s1 : Store) (h : TableFrame s s1) (hs : ScopedRecordsSound s) :
    ScopedRecordsSound s1 := by
  intro name p hl
  rw [h.1] at hl
  obtain ⟨srv, hh, hok⟩ := hs name p hl
  obtain ⟨srv1, h1, hb, _, hc, _⟩ := h.2.2 p srv hh
  refine ⟨srv1, h1, ?_⟩
  intro hsc
  rw [hc] at hsc
  obtain ⟨id, hid⟩ := hok hsc
  exact ⟨id, by rw [hb]; exact hid⟩

theorem Value_WithValue_self (ctx : Context) (k : CtxKey) (v : Iface) :
    Context.Value (WithValue ctx k v) k = v := by
  simp [WithValue, Context.Value]

theorem Value_WithValue_ne (ctx : Context) (k k2 : CtxKey) (v : Iface) (h : k ≠ k2) :
    Context.Value (WithValue ctx k v) k2 = Context.Value ctx k2 := by
  simp [WithValue, Context.Value, h]

theorem mapLookup_mem_keys (m : List (String × Nat)) (n : String) (p : Nat)
    (h : mapLookup m n = some p) : n ∈ mapKeys m := by
  induction m with
  | nil => cases h
  | cons e rest ih =>
    obtain ⟨a, q⟩ := e
    by_cases ha : a = n
    · subst ha
      simp [mapKeys]
    · simp only [mapLookup, ha, if_false] at h
      have := ih h
      simp only [mapKeys, List.map_cons, List.mem_cons] at this ⊢
      exact Or.inr this

theorem mapKeys_mapAssign_nodup (m : List (String × Nat)) (n : String) (p : Nat)
    (h : (mapKeys m).Nodup) : (mapKeys (mapAssign m n p)).Nodup := by
  simp only [mapKeys, mapAssign, List.map_cons, List.nodup_cons]
  constructor
  · intro hmem
    obtain ⟨e, he, hen⟩ := List.mem_map.1 hmem
    have := (List.mem_filter.1 he).2
    simp [hen] at this
  · exact List.Nodup.sublist (List.Sublist.map _ (List.filter_sublist _)) h

theorem New_sound (world : Nat) : ScopedRecordsSound (New world) := by
  intro name p h
  cases h

theorem apply_sound (reg : Registration) (s : Store) (hs : ScopedRecordsSound s) :
    ScopedRecordsSound (reg.apply s) := by
  intro name p hl
  by_cases hn : name = reg.name
  · subst hn
    have hf := apply_find_self reg s
    rw [find_eq_some, hl] at hf
    have hp : p = s.heap.length := Option.some.inj hf.1
    refine ⟨reg.record, by rw [hp]; exact hf.2, ?_⟩
    cases reg with
    | Transient n b => intro h; cases h
    | Singleton n b => intro h; cases h
    | Scoped n b => intro _; exact ⟨b, rfl⟩
  · have hl0 : mapLookup s.loc.services name = some p := by
      rw [apply_eq_register] at hl
      simpa [Store.register, mapLookup_mapAssign_ne _ _ _ _ hn] using hl
    obtain ⟨srv, hh, hok⟩ := hs name p hl0
    have hf := apply_find_ne reg s name p srv hn ((find_eq_some s name p srv).2 ⟨hl0, hh⟩)
    exact ⟨srv, ((find_eq_some _ _ _ _).1 hf).2, hok⟩

theorem apply_keys_nodup (reg : Registration) (s : Store)
    (h : (mapKeys s.loc.services).Nodup) : (mapKeys (reg.apply s).loc.services).Nodup := by
  rw [apply_eq_register]
  exact mapKeys_mapAssign_nodup _ _ _ h

theorem rangeServices_preserves (env : Env) (P : Store → Prop)
    (hresp : env.respects (fun s s1 => P s → P s1)) (r : Request) :
    ∀ (order : List String) (ctx c : Context) (s s1 : Store) (tr : List Invocation),
      rangeServices env r order ctx s = LoopResult.done c s1 tr → P s → P s1 := by
  intro order
  induction order with
  | nil =>
    intro ctx c s s1 tr h hP
    simp only [rangeServices_nil, LoopResult.done.injEq] at h
    rw [← h.2.1]
    exact hP
  | cons name rest ih =>
    intro ctx c s s1 tr h hP
    cases hl : mapLookup s.loc.services name with
    | none =>
      rw [rangeServices_skip_unbound env r name rest ctx s hl] at h
      exact ih ctx c s s1 tr h hP
    | some p =>
      cases hh : s.heap[p]? with
      | none => simp [rangeServices, hl, hh] at h
      | some srv =>
        cases hsc : srv.scoped_ with
        | false =>
          rw [rangeServices_skip_unscoped env r name rest ctx s p srv hl hh hsc] at h
          exact ih ctx c s s1 tr h hP
        | true =>
          cases hb : srv.builder with
          | ServiceBuilder id => simp [rangeServices, hl, hh, hsc, hb] at h
          | ScopedServiceBuilder id =>
            cases hc : env.scopedBuilder id r s with
            | none => simp [rangeServices, hl, hh, hsc, hb, hc] at h
            | some res =>
              obtain ⟨v, sb⟩ := res
              rw [rangeServices_build env r name rest ctx s sb p id srv v hl hh hsc hb hc] at h
              cases hrec : rangeServices env r rest (WithValue ctx (CtxKey.str name) v) sb with
              | noReturn => simp [hrec] at h
              | panic => simp [hrec] at h
              | done c2 s2 tr2 =>
                simp only [hrec, LoopResult.done.injEq] at h
                rw [← h.2.1]
                exact ih _ c2 sb s2 tr2 hrec (hresp.2.1 id r s v sb hc hP)

theorem CachedAt_Get (env : Env) (n : String) (p : Nat) (v : Iface) (hv : v ≠ Iface.nil)
    (hresp : env.respects (fun s s1 => CachedAt n p v s → CachedAt n p v s1))
    (name : String) (s s1 : Store) (w : Iface) (tr : List Invocation)
    (h : Get env name s = Result.ret w s1 tr) (hc : CachedAt n p v s) :
    CachedAt n p v s1 := by
  obtain ⟨q, srv, _, hh, hcase⟩ := Get_ret_inv env name s s1 w tr h
  rcases hcase with ⟨_, _, _, hs, _⟩ | ⟨_, hnil, id, x, sb, _, _, hcall, hs, _, _, _⟩ |
    ⟨_, _, id, _, hcall, _⟩
  · rw [hs]
    exact hc
  · have hqp : p ≠ q := by
      intro e
      subst e
      obtain ⟨_, srv0, h0, _, hi⟩ := hc
      rw [hh] at h0
      have : srv = srv0 := Option.some.inj h0
      subst this
      rw [hnil] at hi
      exact hv hi.symm
    obtain ⟨hl1, srv1, h1, hs1, hi1⟩ := hresp.1 id s x sb hcall hc
    rw [hs]
    refine ⟨by rw [setInstance_loc]; exact hl1, srv1, ?_, hs1, hi1⟩
    rw [setInstance_heap_ne sb q p x hqp]
    exact h1
  · exact hresp.1 id s w s1 hcall hc

theorem CachedAt_step (env : Env) (n : String) (p : Nat) (v : Iface) (hv : v ≠ Iface.nil)
    (hresp : env.respects (fun s s1 => CachedAt n p v s → CachedAt n p v s1))
    (op : Op) (hop : op.keepsName n) (s s1 : Store)
    (h : step env op s = some s1) (hc : CachedAt n p v s) : CachedAt n p v s1 := by
  cases op with
  | register reg =>
    simp only [step, Option.some.injEq] at h
    rw [← h]
    obtain ⟨hl, srv, hh, hs, hi⟩ := hc
    have hne : n ≠ reg.name := fun e => hop e.symm
    have hf := apply_find_ne reg s n p srv hne ((find_eq_some s n p srv).2 ⟨hl, hh⟩)
    rw [find_eq_some] at hf
    exact ⟨hf.1, srv, hf.2, hs, hi⟩
  | Get name =>
    cases hg : Get env name s with
    | ret w s2 tr =>
      simp only [step, hg, Option.some.injEq] at h
      rw [← h]
      exact CachedAt_Get env n p v hv hresp name s s2 w tr hg hc
    | fatal f tr => simp [step, hg] at h
    | noReturn => simp [step, hg] at h
    | panic => simp [step, hg] at h
  | GetScoped ctx name =>
    cases hg : GetScoped ctx name s with
    | ret w s2 tr =>
      simp only [step, hg, Option.some.injEq] at h
      rw [← h, (GetScoped_store ctx name s s2 w tr hg).1]
      exact hc
    | fatal f tr => simp [step, hg] at h
    | noReturn => simp [step, hg] at h
    | panic => simp [step, hg] at h
  | Serve order next r =>
    cases hm : Middleware env order next r s with
    | served passed s2 tr =>
      simp only [step, hm, Option.some.injEq] at h
      rw [← h]
      unfold Middleware at hm
      cases hloop : rangeServices env r order r.Context s with
      | noReturn => simp [hloop] at hm
      | panic => simp [hloop] at hm
      | done c s3 tr3 =>
        cases hn : env.handler next (r.WithContext c) s3 with
        | none => simp [hloop, hn] at hm
        | some s4 =>
          simp only [hloop, hn, ServeResult.served.injEq] at hm
          rw [← hm.2.1]
          exact hresp.2.2 next _ s3 s4 hn
            (rangeServices_preserves env (CachedAt n p v) hresp r order _ c s s3 tr3 hloop hc)
    | noReturn => simp [step, hm] at h
    | panic => simp [step, hm] at h

theorem CachedAt_run (env : Env) (n : String) (p : Nat) (v : Iface) (hv : v ≠ Iface.nil)
    (hresp : env.respects (fun s s1 => CachedAt n p v s → CachedAt n p v s1)) :
    ∀ (ops : List Op) (s s1 : Store), (∀ op ∈ ops, op.keepsName n) →
      run env ops s = some s1 → CachedAt n p v s → CachedAt n p v s1 := by
  intro ops
  induction ops with
  | nil =>
    intro s s1 _ h hc
    simp only [run, Option.some.injEq] at h
    rw [← h]
    exact hc
  | cons op rest ih =>
    intro s s1 hops h hc
    cases hst : step env op s with
    | none => simp [run, hst] at h
    | some s2 =>
      simp only [run, hst] at h
      exact ih s2 s1 (fun o ho => hops o (List.mem_cons_of_mem _ ho)) h
        (CachedAt_step env n p v hv hresp op (hops op (List.mem_cons_self _ _)) s s2 hst hc)

theorem envCounter_keeps_cache (n : String) (p : Nat) (v : Iface) :
    envCounter.respects (fun s s1 => CachedAt n p v s → CachedAt n p v s1) := by
  refine ⟨?_, ?_, ?_⟩
  · intro b s w s1 h hc
    simp only [envCounter, Option.some.injEq, Prod.mk.injEq] at h
    rw [← h.2]
    exact hc
  · intro b r s w s1 h hc
    simp only [envCounter, Option.some.injEq, Prod.mk.injEq] at h
    rw [← h.2]
    exact hc
  · intro b r s s1 h hc
    simp only [envCounter, Option.some.injEq] at h
    rw [← h]
    exact hc

/-- C9 (as stated) fails: a registration under the same name replaces the record by a new
one with an empty cache slot. After `Singleton("clock", b0)` and `Get("clock")` the slot
holds the value built; after a further `Singleton("clock", b1)` the slot of the record
bound to "clock" is nil. -/
theorem singleton_cache_cleared_by_reregistration :
    (run envCounter [Op.Get "clock"] (Singleton "clock" 0 (New 7))).bind
        (fun s => s.cached "clock") = some (Iface.val 7) ∧
    (run envCounter [Op.Get "clock", Op.register (Registration.Singleton "clock" 1)]
        (Singleton "clock" 0 (New 7))).bind
        (fun s => s.cached "clock") = some Iface.nil := by
  decide

/-- C9 (amended): let the singleton record bound to `n` hold a non-nil cached value `v`.
After any sequence of operations that return and make no registration under `n` (calls of
`Get`, `GetScoped` and the `Middleware` handler, and registrations under other names), run
with builders and handlers that themselves leave that binding and slot alone, `n` is still
bound to the same record, its cache slot still holds `v`, and `Get(n)` returns `v` without
invoking a builder. -/
theorem singleton_cache_kept (env : Env) (n : String) (p : Nat) (v : Iface)
    (hv : v ≠ Iface.nil)
    (hresp : env.respects (fun s s1 => CachedAt n p v s → CachedAt n p v s1))
    (ops : List Op) (hops : ∀ op ∈ ops, op.keepsName n) (s s1 : Store)
    (hc : CachedAt n p v s) (hrun : run env ops s = some s1) :
    CachedAt n p v s1 ∧ s1.cached n = some v ∧ Get env n s1 = Result.ret v s1 [] := by
  have h1 := CachedAt_run env n p v hv hresp ops s s1 hops hrun hc
  obtain ⟨hl, srv, hh, hs, hi⟩ := h1
  have hf : s1.find n = some (p, srv) := (find_eq_some s1 n p srv).2 ⟨hl, hh⟩
  refine ⟨⟨hl, srv, hh, hs, hi⟩, ?_, ?_⟩
  · simp [Store.cached, hf, hi]
  · have hg := Get_singleton_cached env n s1 p srv hf hs (by rw [hi]; exact hv)
    rw [hi] at hg
    exact hg

theorem singleton_cache_kept_witness :
    CachedAt "clock" 0 (Iface.val 7)
      { loc := { services := [("requestId", 2), ("greeting", 1), ("clock", 0)] },
        heap := [{ (Registration.Singleton "clock" 0).record with instance_ := Iface.val 7 },
                 (Registration.Transient "greeting" 1).record,
                 (Registration.Scoped "requestId" 2).record],
        world := 9 } ∧
    Store.cached
      { loc := { services := [("requestId", 2), ("greeting", 1), ("clock", 0)] },
        heap := [{ (Registration.Singleton "clock" 0).record with instance_ := Iface.val 7 },
                 (Registration.Transient "greeting" 1).record,
                 (Registration.Scoped "requestId" 2).record],
        world := 9 } "clock" = some (Iface.val 7) ∧
    Get envCounter "clock"
      { loc := { services := [("requestId", 2), ("greeting", 1), ("clock", 0)] },
        heap := [{ (Registration.Singleton "clock" 0).record with instance_ := Iface.val 7 },
                 (Registration.Transient "greeting" 1).record,
                 (Registration.Scoped "requestId" 2).record],
        world := 9 } =
      Result.ret (Iface.val 7)
        { loc := { services := [("requestId", 2), ("greeting", 1), ("clock", 0)] },
          heap := [{ (Registration.Singleton "clock" 0).record with instance_ := Iface.val 7 },
                   (Registration.Transient "greeting" 1).record,
                   (Registration.Scoped "requestId" 2).record],
          world := 9 } [] :=
  singleton_cache_kept envCounter "clock" 0 (Iface.val 7) (by decide)
    (envCounter_keeps_cache "clock" 0 (Iface.val 7))
    [Op.Get "clock", Op.register (Registration.Transient "greeting" 1), Op.Get "greeting",
      Op.register (Registration.Scoped "requestId" 2),
      Op.Serve ["greeting", "requestId", "clock"] 0 { id := 41, ctx := [] },
      Op.GetScoped [(CtxKey.str "requestId", Iface.val 41)] "requestId"]
    (by
      intro op hop
      simp only [List.mem_cons, List.mem_singleton, List.not_mem_nil, or_false] at hop
      rcases hop with h | h | h | h | h | h <;> subst h <;> simp [Op.keepsName, Registration.name])
    (({ (Singleton "clock" 0 (New 7)) with world := 8 } : Store).setInstance 0 (Iface.val 7))
    _
    ⟨by decide, { (Registration.Singleton "clock" 0).record with instance_ := Iface.val 7 },
      by decide, rfl, rfl⟩
    (by decide)

/-- C15: for every store, every context (whatever it carries, also a value under the
name) and every name with no entry in `loc.services`, `GetScoped(ctx, name)` ends in the
fatal error "could not find service" (condition NotFound, not WrongAccessPattern) and
returns no value; no builder is invoked. -/
theorem GetScoped_unknown_name (ctx : Context) (name : String) (s : Store)
    (h : mapLookup s.loc.services name = none) :
    GetScoped ctx name s = Result.fatal (Fatal.couldNotFindService name) [] ∧
    Fatal.condition (Fatal.couldNotFindService name) = Condition.NotFound ∧
    Fatal.condition (Fatal.couldNotFindService name) ≠ Condition.WrongAccessPattern := by
  refine ⟨?_, rfl, ?_⟩
  · simp [GetScoped, h]
  · intro e
    cases e

theorem GetScoped_unknown_name_witness :
    GetScoped [(CtxKey.str "nope", Iface.val 3)] "nope" (Scoped "requestId" 0 (New 0)) =
      Result.fatal (Fatal.couldNotFindService "nope") [] ∧
    Fatal.condition (Fatal.couldNotFindService "nope") = Condition.NotFound ∧
    Fatal.condition (Fatal.couldNotFindService "nope") ≠ Condition.WrongAccessPattern :=
  GetScoped_unknown_name [(CtxKey.str "nope", Iface.val 3)] "nope"
    (Scoped "requestId" 0 (New 0)) (by decide)

theorem Middleware_of_loop (env : Env) (order : List String) (next : Nat) (r : Request)
    (s s1 : Store) (ctx : Context) (tr : List Invocation)
    (h : rangeServices env r order r.Context s = LoopResult.done ctx s1 tr) :
    Middleware env order next r s =
      (match env.handler next (r.WithContext ctx) s1 with
        | some s2 => ServeResult.served (r.WithContext ctx) s2 tr
        | none => ServeResult.noReturn) := by
  unfold Middleware
  rw [h]

theorem New_wellFormed (world : Nat) : WellFormed (New world) := by
  refine ⟨List.nodup_nil, ?_, ?_⟩
  · intro name p h
    cases h
  · intro p srv h
    simp [New] at h

theorem record_wellFormed (reg : Registration) :
    reg.record.oneStrategy = true ∧ reg.record.cacheOnlyOnSingleton = true ∧
      reg.record.builderMatches = true := by
  cases reg <;> exact ⟨rfl, rfl, rfl⟩

theorem apply_wellFormed (reg : Registration) (s : Store) (h : WellFormed s) :
    WellFormed (reg.apply s) := by
  obtain ⟨hk, hp, hr⟩ := h
  refine ⟨apply_keys_nodup reg s hk, ?_, ?_⟩
  · intro name p hl
    rw [apply_eq_register] at hl ⊢
    simp only [Store.register, List.length_append, List.length_singleton] at hl ⊢
    by_cases hn : name = reg.name
    · subst hn
      rw [mapLookup_mapAssign_self] at hl
      have : s.heap.length = p := Option.some.inj hl
      omega
    · rw [mapLookup_mapAssign_ne _ _ _ _ hn] at hl
      have := hp name p hl
      omega
  · intro p srv hh
    rw [apply_eq_register] at hh
    simp only [Store.register] at hh
    by_cases hlt : p < s.heap.length
    · rw [List.getElem?_append_left hlt] at hh
      exact hr p srv hh
    · have hge : s.heap.length ≤ p := by omega
      rw [List.getElem?_append_right hge] at hh
      cases hq : p - s.heap.length with
      | zero =>
        rw [hq] at hh
        simp only [List.getElem?_cons_zero, Option.some.injEq] at hh
        rw [← hh]
        exact record_wellFormed reg
      | succ j =>
        rw [hq] at hh
        simp at hh

theorem setInstance_wellFormed (s : Store) (p : Nat) (v : Iface) (srv : service)
    (h : WellFormed s) (hh : s.heap[p]? = some srv) (hsing : srv.singleton = true) :
    WellFormed (s.setInstance p v) := by
  obtain ⟨hk, hp, hr⟩ := h
  have hlen : (s.setInstance p v).heap.length = s.heap.length := by
    simp [Store.setInstance, hh]
  refine ⟨by rw [setInstance_loc]; exact hk, ?_, ?_⟩
  · intro name q hl
    rw [setInstance_loc] at hl
    rw [hlen]
    exact hp name q hl
  · intro q x hq
    by_cases hqp : q = p
    · subst hqp
      rw [setInstance_heap_self s q v srv hh] at hq
      have hx : x = { srv with instance_ := v } := (Option.some.inj hq).symm
      obtain ⟨h1, _, h3⟩ := hr q srv hh
      subst hx
      refine ⟨h1, ?_, h3⟩
      simp [service.cacheOnlyOnSingleton, hsing]
    · rw [setInstance_heap_ne s p q v hqp] at hq
      exact hr q x hq

theorem Get_wellFormed (env : Env) (hrely : env.respects ApiStep) (name : String)
    (s s1 : Store) (v : Iface) (tr : List Invocation)
    (h : Get env name s = Result.ret v s1 tr) (hw : WellFormed s) : WellFormed s1 := by
  obtain ⟨p, srv, _, hh, hcase⟩ := Get_ret_inv env name s s1 v tr h
  rcases hcase with ⟨_, _, _, hs, _⟩ | ⟨hsing, _, id, w, sb, _, _, hcall, hs, _, _, _⟩ |
    ⟨_, _, id, _, hcall, _⟩
  · rw [hs]
    exact hw
  · obtain ⟨hkept, hwf⟩ := hrely.1 id s w sb hcall
    obtain ⟨srv1, h1, _, hs1, _⟩ := hkept p srv hh
    rw [hs]
    exact setInstance_wellFormed sb p w srv1 (hwf hw) h1 (by rw [hs1]; exact hsing)
  · exact (hrely.1 id s v s1 hcall).2 hw

theorem ApiStep_respects_wellFormed (env : Env) (hrely : env.respects ApiStep) :
    env.respects (fun s s1 => WellFormed s → WellFormed s1) :=
  ⟨fun b s v s1 h => (hrely.1 b s v s1 h).2, fun b r s v s1 h => (hrely.2.1 b r s v s1 h).2,
    fun b r s s1 h => (hrely.2.2 b r s s1 h).2⟩

theorem step_wellFormed (env : Env) (hrely : env.respects ApiStep) (op : Op) (s s1 : Store)
    (h : step env op s = some s1) (hw : WellFormed s) : WellFormed s1 := by
  cases op with
  | register reg =>
    simp only [step, Option.some.injEq] at h
    rw [← h]
    exact apply_wellFormed reg s hw
  | Get name =>
    cases hg : Get env name s with
    | ret w s2 tr =>
      simp only [step, hg, Option.some.injEq] at h
      rw [← h]
      exact Get_wellFormed env hrely name s s2 w tr hg hw
    | fatal f tr => simp [step, hg] at h
    | noReturn => simp [step, hg] at h
    | panic => simp [step, hg] at h
  | GetScoped ctx name =>
    cases hg : GetScoped ctx name s with
    | ret w s2 tr =>
      simp only [step, hg, Option.some.injEq] at h
      rw [← h, (GetScoped_store ctx name s s2 w tr hg).1]
      exact hw
    | fatal f tr => simp [step, hg] at h
    | noReturn => simp [step, hg] at h
    | panic => simp [step, hg] at h
  | Serve order next r =>
    cases hm : Middleware env order next r s with
    | served passed s2 tr =>
      simp only [step, hm, Option.some.injEq] at h
      rw [← h]
      unfold Middleware at hm
      cases hloop : rangeServices env r order r.Context s with
      | noReturn => simp [hloop] at hm
      | panic => simp [hloop] at hm
      | done c s3 tr3 =>
        cases hn : env.handler next (r.WithContext c) s3 with
        | none => simp [hloop, hn] at hm
        | some s4 =>
          simp only [hloop, hn, ServeResult.served.injEq] at hm
          rw [← hm.2.1]
          exact (hrely.2.2 next _ s3 s4 hn).2
            (rangeServices_preserves env WellFormed (ApiStep_respects_wellFormed env hrely)
              r order _ c s s3 tr3 hloop hw)
    | noReturn => simp [step, hm] at h
    | panic => simp [step, hm] at h

theorem run_wellFormed (env : Env) (hrely : env.respects ApiStep) :
    ∀ (ops : List Op) (s s1 : Store), run env ops s = some s1 → WellFormed s →
      WellFormed s1 := by
  intro ops
  induction ops with
  | nil =>
    intro s s1 h hw
    simp only [run, Option.some.injEq] at h
    rw [← h]
    exact hw
  | cons op rest ih =>
    intro s s1 h hw
    cases hst : step env op s with
    | none => simp [run, hst] at h
    | some s2 =>
      simp only [run, hst] at h
      exact ih s2 s1 h (step_wellFormed env hrely op s s2 hst hw)

theorem filter_key_length_le_one (m : List (String × Nat)) (name : String)
    (h : (mapKeys m).Nodup) :
    (m.filter (fun e => decide (e.1 = name))).length ≤ 1 := by
  induction m with
  | nil => simp
  | cons e rest ih =>
    simp only [mapKeys, List.map_cons, List.nodup_cons] at h
    obtain ⟨hnot, hnd⟩ := h
    by_cases ha : e.1 = name
    · have hnone : rest.filter (fun e => decide (e.1 = name)) = [] := by
        rw [List.filter_eq_nil_iff]
        intro x hx hd
        have hxn : x.1 = name := of_decide_eq_true hd
        exact hnot (List.mem_map.2 ⟨x, hx, by rw [hxn, ha]⟩)
      have hfc : List.filter (fun e => decide (e.1 = name)) (e :: rest) =
          e :: List.filter (fun e => decide (e.1 = name)) rest :=
        List.filter_cons_of_pos (decide_eq_true ha)
      rw [hfc, hnone]
      simp
    · have hfc : List.filter (fun e => decide (e.1 = name)) (e :: rest) =
          List.filter (fun e => decide (e.1 = name)) rest :=
        List.filter_cons_of_neg (fun hd => ha (of_decide_eq_true hd))
      rw [hfc]
      exact ih hnd

theorem TableFrame_ApiStep (s s1 : Store) (h : TableFrame s s1) : ApiStep s s1 := by
  obtain ⟨hloc, hlen, hcells⟩ := h
  refine ⟨?_, ?_⟩
  · intro p srv hp
    obtain ⟨srv1, h1, hb, hs, hc, _⟩ := hcells p srv hp
    exact ⟨srv1, h1, hb, hs, hc⟩
  · rintro ⟨hk, hp, hr⟩
    refine ⟨by rw [hloc]; exact hk, ?_, ?_⟩
    · intro name p hl
      rw [hloc] at hl
      rw [hlen]
      exact hp name p hl
    · intro p srv1 h1
      have hlt : p < s.heap.length := by
        rw [← hlen]
        exact getElem?_some_lt _ _ _ h1
      obtain ⟨srv, hsrv⟩ : ∃ srv, s.heap[p]? = some srv :=
        ⟨s.heap[p], List.getElem?_eq_getElem hlt⟩
      obtain ⟨srv2, h2, hb, hs, hc, hi⟩ := hcells p srv hsrv
      rw [h1] at h2
      have he : srv1 = srv2 := Option.some.inj h2
      subst he
      obtain ⟨g1, g2, g3⟩ := hr p srv hsrv
      refine ⟨?_, ?_, ?_⟩
      · simp only [service.oneStrategy, hs, hc] at g1 ⊢
        exact g1
      · rcases hi with hi | hi
        · simp only [service.cacheOnlyOnSingleton, hs, hi] at g2 ⊢
          exact g2
        · simp [service.cacheOnlyOnSingleton, hs, hi.1]
      · simp only [service.builderMatches, hb, hc] at g3 ⊢
        exact g3

theorem envCounter_api : envCounter.respects ApiStep :=
  ⟨fun b s v s1 h => TableFrame_ApiStep s s1 (envCounter_respects.1 b s v s1 h),
    fun b r s v s1 h => TableFrame_ApiStep s s1 (envCounter_respects.2.1 b r s v s1 h),
    fun b r s s1 h => TableFrame_ApiStep s s1 (envCounter_respects.2.2 b r s s1 h)⟩

/-- C11: let caller code (builders, handlers) reach the locator only through its methods.
For every store reached from `New()` by any sequence of `Transient`, `Scoped`,
`Singleton`, `Get`, `GetScoped` and `Middleware` calls that return: every record in the
table has its singleton and scoped flags not both set, its cache slot is populated only
if it is a singleton, and the table holds at most one entry per name. -/
theorem records_well_formed (env : Env) (hrely : env.respects ApiStep) (ops : List Op)
    (world : Nat) (s : Store) (hrun : run env ops (New world) = some s) :
    (∀ (name : String) (p : Nat) (srv : service), s.find name = some (p, srv) →
      ¬ (srv.singleton = true ∧ srv.scoped_ = true) ∧
      (srv.instance_ ≠ Iface.nil → srv.singleton = true)) ∧
    (∀ name : String,
      (s.loc.services.filter (fun e => decide (e.1 = name))).length ≤ 1) := by
  obtain ⟨hk, _, hr⟩ := run_wellFormed env hrely ops (New world) s hrun (New_wellFormed world)
  refine ⟨?_, fun name => filter_key_length_le_one _ name hk⟩
  intro name p srv hf
  obtain ⟨g1, g2, _⟩ := hr p srv ((find_eq_some _ _ _ _).1 hf).2
  constructor
  · rintro ⟨h1, h2⟩
    simp [service.oneStrategy, h1, h2] at g1
  · intro hne
    simpa [service.cacheOnlyOnSingleton, hne] using g2

theorem records_well_formed_witness :
    (∀ (name : String) (p : Nat) (srv : service),
      Store.find
        { loc := { services := [("requestId", 2), ("greeting", 1), ("clock", 0)] },
          heap := [{ (Registration.Singleton "clock" 0).record with instance_ := Iface.val 7 },
                   (Registration.Transient "greeting" 1).record,
                   (Registration.Scoped "requestId" 2).record],
          world := 9 } name = some (p, srv) →
      ¬ (srv.singleton = true ∧ srv.scoped_ = true) ∧
      (srv.instance_ ≠ Iface.nil → srv.singleton = true)) ∧
    (∀ name : String,
      ((Store.loc
        { loc := { services := [("requestId", 2), ("greeting", 1), ("clock", 0)] },
          heap := [{ (Registration.Singleton "clock" 0).record with instance_ := Iface.val 7 },
                   (Registration.Transient "greeting" 1).record,
                   (Registration.Scoped "requestId" 2).record],
          world := 9 }).services.filter (fun e => decide (e.1 = name))).length ≤ 1) :=
  records_well_formed envCounter envCounter_api
    [Op.register (Registration.Singleton "clock" 0), Op.Get "clock",
      Op.register (Registration.Transient "greeting" 1), Op.Get "greeting",
      Op.register (Registration.Scoped "requestId" 2),
      Op.Serve ["greeting", "requestId", "clock"] 0 { id := 41, ctx := [] },
      Op.GetScoped [(CtxKey.str "requestId", Iface.val 41)] "requestId"]
    7 _ (by decide)

theorem builderMatches_unscoped (srv : service) (h : srv.builderMatches = true)
    (hsc : srv.scoped_ = false) : ∃ id, srv.builder = Builder.ServiceBuilder id := by
  cases hb : srv.builder with
  | ServiceBuilder id => exact ⟨id, rfl⟩
  | ScopedServiceBuilder id => simp [service.builderMatches, hb, hsc] at h

theorem builderMatches_scoped (srv : service) (h : srv.builderMatches = true)
    (hsc : srv.scoped_ = true) : ∃ id, srv.builder = Builder.ScopedServiceBuilder id := by
  cases hb : srv.builder with
  | ServiceBuilder id => simp [service.builderMatches, hb, hsc] at h
  | ScopedServiceBuilder id => exact ⟨id, rfl⟩

theorem oneStrategy_singleton (srv : service) (h : srv.oneStrategy = true)
    (hsing : srv.singleton = true) : srv.scoped_ = false := by
  cases hsc : srv.scoped_ with
  | false => rfl
  | true => simp [service.oneStrategy, hsing, hsc] at h

theorem Get_no_panic (env : Env) (hrely : env.respects ApiStep) (name : String) (s : Store)
    (hw : WellFormed s) : Get env name s ≠ Result.panic := by
  obtain ⟨_, hp, hr⟩ := hw
  cases hl : mapLookup s.loc.services name with
  | none => simp [Get, hl]
  | some p =>
    have hlt := hp name p hl
    have hh : s.heap[p]? = some s.heap[p] := List.getElem?_eq_getElem hlt
    generalize s.heap[p] = srv at hh
    obtain ⟨g1, _, g3⟩ := hr p srv hh
    cases hsing : srv.singleton with
    | true =>
      have hsc := oneStrategy_singleton srv g1 hsing
      obtain ⟨id, hb⟩ := builderMatches_unscoped srv g3 hsc
      by_cases hnil : srv.instance_ = Iface.nil
      · cases hc : env.serviceBuilder id s with
        | none => simp [Get, hl, hh, hsing, hnil, hb, callServiceBuilder, hc]
        | some res =>
          obtain ⟨w, sb⟩ := res
          obtain ⟨srv1, h1, _⟩ := (hrely.1 id s w sb hc).1 p srv hh
          have h2 := setInstance_heap_self sb p w srv1 h1
          simp [Get, hl, hh, hsing, hnil, hb, callServiceBuilder, hc, h2]
      · simp [Get, hl, hh, hsing, hnil]
    | false =>
      cases hsc : srv.scoped_ with
      | true => simp [Get, hl, hh, hsing, hsc]
      | false =>
        obtain ⟨id, hb⟩ := builderMatches_unscoped srv g3 hsc
        cases hc : env.serviceBuilder id s with
        | none => simp [Get, hl, hh, hsing, hsc, hb, callServiceBuilder, hc]
        | some res =>
          obtain ⟨w, sb⟩ := res
          simp [Get, hl, hh, hsing, hsc, hb, callServiceBuilder, hc]

theorem rangeServices_no_panic (env : Env) (hrely : env.respects ApiStep) (r : Request) :
    ∀ (order : List String) (ctx : Context) (s : Store), WellFormed s →
      rangeServices env r order ctx s ≠ LoopResult.panic := by
  intro order
  induction order with
  | nil =>
    intro ctx s _
    simp [rangeServices_nil]
  | cons name rest ih =>
    intro ctx s hw
    cases hl : mapLookup s.loc.services name with
    | none =>
      rw [rangeServices_skip_unbound env r name rest ctx s hl]
      exact ih ctx s hw
    | some p =>
      have hlt := hw.2.1 name p hl
      have hh : s.heap[p]? = some s.heap[p] := List.getElem?_eq_getElem hlt
      generalize s.heap[p] = srv at hh
      cases hsc : srv.scoped_ with
      | false =>
        rw [rangeServices_skip_unscoped env r name rest ctx s p srv hl hh hsc]
        exact ih ctx s hw
      | true =>
        obtain ⟨id, hb⟩ := builderMatches_scoped srv (hw.2.2 p srv hh).2.2 hsc
        cases hc : env.scopedBuilder id r s with
        | none => simp [rangeServices, hl, hh, hsc, hb, hc]
        | some res =>
          obtain ⟨v, sb⟩ := res
          rw [rangeServices_build env r name rest ctx s sb p id srv v hl hh hsc hb hc]
          have hnext := ih (WithValue ctx (CtxKey.str name) v) sb
            ((hrely.2.1 id r s v sb hc).2 hw)
          cases hrec : rangeServices env r rest (WithValue ctx (CtxKey.str name) v) sb with
          | done c s2 tr => simp
          | noReturn => simp
          | panic => exact absurd hrec hnext

theorem Middleware_no_panic (env : Env) (hrely : env.respects ApiStep) (order : List String)
    (next : Nat) (r : Request) (s : Store) (hw : WellFormed s) :
    Middleware env order next r s ≠ ServeResult.panic := by
  unfold Middleware
  have hloop := rangeServices_no_panic env hrely r order r.Context s hw
  cases hrun : rangeServices env r order r.Context s with
  | done c s1 tr =>
    cases hn : env.handler next (r.WithContext c) s1 with
    | none => simp [hn]
    | some s2 => simp [hn]
  | noReturn => simp
  | panic => exact absurd hrun hloop

/-- C14: let caller code (builders, handlers) reach the locator only through its methods.
For every store reached from `New()` by any sequence of `Transient`, `Scoped`,
`Singleton`, `Get`, `GetScoped` and `Middleware` calls that return: every record in the
table stores a `ScopedServiceBuilder` when its scoped flag is set and a `ServiceBuilder`
otherwise, and no call of `Get` or of the handler returned by `Middleware` (for any
visiting order) ends in a run-time panic: neither type assertion fails. -/
theorem builder_casts_never_fail (env : Env) (hrely : env.respects ApiStep) (ops : List Op)
    (world : Nat) (s : Store) (hrun : run env ops (New world) = some s) :
    (∀ (name : String) (p : Nat) (srv : service), s.find name = some (p, srv) →
      (srv.scoped_ = true → ∃ id, srv.builder = Builder.ScopedServiceBuilder id) ∧
      (srv.scoped_ = false → ∃ id, srv.builder = Builder.ServiceBuilder id)) ∧
    (∀ name : String, Get env name s ≠ Result.panic) ∧
    (∀ (order : List String) (next : Nat) (r : Request),
      Middleware env order next r s ≠ ServeResult.panic) := by
  have hw := run_wellFormed env hrely ops (New world) s hrun (New_wellFormed world)
  refine ⟨?_, fun name => Get_no_panic env hrely name s hw,
    fun order next r => Middleware_no_panic env hrely order next r s hw⟩
  intro name p srv hf
  have g3 := (hw.2.2 p srv ((find_eq_some _ _ _ _).1 hf).2).2.2
  exact ⟨builderMatches_scoped srv g3, builderMatches_unscoped srv g3⟩

theorem builder_casts_never_fail_witness :
    (∀ (name : String) (p : Nat) (srv : service),
      (Scoped "requestId" 2 (Transient "greeting" 1 (Singleton "clock" 0 (New 7)))).find name =
        some (p, srv) →
      (srv.scoped_ = true → ∃ id, srv.builder = Builder.ScopedServiceBuilder id) ∧
      (srv.scoped_ = false → ∃ id, srv.builder = Builder.ServiceBuilder id)) ∧
    (∀ name : String,
      Get envCounter name
        (Scoped "requestId" 2 (Transient "greeting" 1 (Singleton "clock" 0 (New 7)))) ≠
        Result.panic) ∧
    (∀ (order : List String) (next : Nat) (r : Request),
      Middleware envCounter order next r
        (Scoped "requestId" 2 (Transient "greeting" 1 (Singleton "clock" 0 (New 7)))) ≠
        ServeResult.panic) :=
  builder_casts_never_fail envCounter envCounter_api
    [Op.register (Registration.Singleton "clock" 0),
      Op.register (Registration.Transient "greeting" 1),
      Op.register (Registration.Scoped "requestId" 2)]
    7 _ (by decide)

/-- A goroutine that runs alone through the steps of `GetStep` computes `Get`: the step
model refines the source function. -/
theorem soloGet_eq_Get (env : Env) (name : String) (s : Store) :
    soloGet env name s = Get env name s := by
  cases hl : mapLookup s.loc.services name with
  | none => simp [soloGet, runSchedule, stepThread, GetStep, Conc.init, Get, hl]
  | some p =>
    cases hh : s.heap[p]? with
    | none => simp [soloGet, runSchedule, stepThread, GetStep, Conc.init, Get, hl, hh]
    | some srv =>
      cases hsing : srv.singleton with
      | true =>
        by_cases hnil : srv.instance_ = Iface.nil
        · cases hb : srv.builder with
          | ScopedServiceBuilder id =>
            simp [soloGet, runSchedule, stepThread, GetStep, Conc.init, Get, hl, hh, hsing,
              hnil, hb, callServiceBuilder]
          | ServiceBuilder id =>
            cases hc : env.serviceBuilder id s with
            | none =>
              simp [soloGet, runSchedule, stepThread, GetStep, Conc.init, Get, hl, hh, hsing,
                hnil, hb, callServiceBuilder, hc]
            | some res =>
              obtain ⟨w, sb⟩ := res
              cases h2 : (sb.setInstance p w).heap[p]? with
              | none =>
                simp [soloGet, runSchedule, stepThread, GetStep, Conc.init, Get, hl, hh, hsing,
                  hnil, hb, callServiceBuilder, hc, h2]
              | some srv2 =>
                simp [soloGet, runSchedule, stepThread, GetStep, Conc.init, Get, hl, hh, hsing,
                  hnil, hb, callServiceBuilder, hc, h2]
        · simp [soloGet, runSchedule, stepThread, GetStep, Conc.init, Get, hl, hh, hsing, hnil]
      | false =>
        cases hsc : srv.scoped_ with
        | true =>
          simp [soloGet, runSchedule, stepThread, GetStep, Conc.init, Get, hl, hh, hsing, hsc]
        | false =>
          cases hb : srv.builder with
          | ScopedServiceBuilder id =>
            simp [soloGet, runSchedule, stepThread, GetStep, Conc.init, Get, hl, hh, hsing,
              hsc, hb, callServiceBuilder]
          | ServiceBuilder id =>
            cases hc : env.serviceBuilder id s with
            | none =>
              simp [soloGet, runSchedule, stepThread, GetStep, Conc.init, Get, hl, hh, hsing,
                hsc, hb, callServiceBuilder, hc]
            | some res =>
              obtain ⟨w, sb⟩ := res
              simp [soloGet, runSchedule, stepThread, GetStep, Conc.init, Get, hl, hh, hsing,
                hsc, hb, callServiceBuilder, hc]

theorem runSchedule_append (env : Env) (name : String) (xs ys : List Nat) :
    ∀ c : Conc, runSchedule env name (xs ++ ys) c =
      runSchedule env name ys (runSchedule env name xs c) := by
  induction xs with
  | nil =>
    intro c
    rfl
  | cons i rest ih =>
    intro c
    simp only [List.cons_append, runSchedule]
    exact ih _

/-- A goroutine that runs its whole call alone on a singleton with an empty cache slot
invokes the builder, stores the value and returns it. -/
theorem runSchedule_first (env : Env) (name : String) (i : Nat) (c : Conc) (s1 : Store)
    (p b : Nat) (v : Iface) (hph : c.phases i = Phase.start)
    (hfind : c.store.find name = some (p, (Registration.Singleton name b).record))
    (hcall : env.serviceBuilder b c.store = some (v, s1))
    (hkeep : s1.find name = some (p, (Registration.Singleton name b).record)) :
    (runSchedule env name [i, i, i, i] c).store = s1.setInstance p v ∧
    (runSchedule env name [i, i, i, i] c).invoked =
      c.invoked ++ [Invocation.service name b v] ∧
    (runSchedule env name [i, i, i, i] c).phases i = Phase.done v ∧
    ∀ j, j ≠ i → (runSchedule env name [i, i, i, i] c).phases j = c.phases j := by
  rw [find_eq_some] at hfind hkeep
  have h2 := setInstance_heap_self s1 p v _ hkeep.2
  refine ⟨?_, ?_, ?_, ?_⟩
  · simp [runSchedule, stepThread, GetStep, hph, hfind.1, hfind.2, Registration.record,
      callServiceBuilder, hcall, h2]
  · simp [runSchedule, stepThread, GetStep, hph, hfind.1, hfind.2, Registration.record,
      callServiceBuilder, hcall, h2]
  · simp [runSchedule, stepThread, GetStep, hph, hfind.1, hfind.2, Registration.record,
      callServiceBuilder, hcall, h2]
  · intro j hj
    simp [runSchedule, stepThread, hj]

/-- A goroutine that runs its whole call alone on a singleton with a populated cache slot
returns the cached value and invokes nothing. -/
theorem runSchedule_cached (env : Env) (name : String) (i : Nat) (c : Conc) (p : Nat)
    (srv : service) (hph : c.phases i = Phase.start)
    (hfind : c.store.find name = some (p, srv)) (hsing : srv.singleton = true)
    (hval : srv.instance_ ≠ Iface.nil) :
    (runSchedule env name [i, i, i, i] c).store = c.store ∧
    (runSchedule env name [i, i, i, i] c).invoked = c.invoked ∧
    (runSchedule env name [i, i, i, i] c).phases i = Phase.done srv.instance_ ∧
    ∀ j, j ≠ i → (runSchedule env name [i, i, i, i] c).phases j = c.phases j := by
  rw [find_eq_some] at hfind
  refine ⟨?_, ?_, ?_, ?_⟩
  · simp [runSchedule, stepThread, GetStep, hph, hfind.1, hfind.2, hsing, hval]
  · simp [runSchedule, stepThread, GetStep, hph, hfind.1, hfind.2, hsing, hval]
  · simp [runSchedule, stepThread, GetStep, hph, hfind.1, hfind.2, hsing, hval]
  · intro j hj
    simp [runSchedule, stepThread, hj]

theorem serialSchedule_run (env : Env) (name : String) (s s1 : Store) (p b : Nat) (v : Iface)
    (hfind : s.find name = some (p, (Registration.Singleton name b).record))
    (hcall : env.serviceBuilder b s = some (v, s1))
    (hv : v ≠ Iface.nil)
    (hkeep : s1.find name = some (p, (Registration.Singleton name b).record)) :
    ∀ n : Nat,
      (runSchedule env name (serialSchedule (n + 1)) (Conc.init s)).store =
        s1.setInstance p v ∧
      (runSchedule env name (serialSchedule (n + 1)) (Conc.init s)).invoked =
        [Invocation.service name b v] ∧
      (∀ i, i < n + 1 →
        (runSchedule env name (serialSchedule (n + 1)) (Conc.init s)).phases i =
          Phase.done v) ∧
      (∀ j, n + 1 ≤ j →
        (runSchedule env name (serialSchedule (n + 1)) (Conc.init s)).phases j =
          Phase.start) := by
  intro n
  induction n with
  | zero =>
    have hs : serialSchedule (0 + 1) = [0, 0, 0, 0] := rfl
    rw [hs]
    obtain ⟨g1, g2, g3, g4⟩ :=
      runSchedule_first env name 0 (Conc.init s) s1 p b v rfl hfind hcall hkeep
    refine ⟨g1, by rw [g2]; rfl, ?_, ?_⟩
    · intro i hi
      have : i = 0 := by omega
      subst this
      exact g3
    · intro j hj
      rw [g4 j (by omega)]
      rfl
  | succ n ih =>
    obtain ⟨h1, h2, h3, h4⟩ := ih
    have hs : serialSchedule (n + 1 + 1) =
        serialSchedule (n + 1) ++ [n + 1, n + 1, n + 1, n + 1] := rfl
    rw [hs, runSchedule_append]
    have hk := (find_eq_some _ _ _ _).1 hkeep
    have hcached : (runSchedule env name (serialSchedule (n + 1)) (Conc.init s)).store.find name
        = some (p, { (Registration.Singleton name b).record with instance_ := v }) := by
      rw [h1, find_eq_some]
      exact ⟨by rw [setInstance_loc]; exact hk.1, setInstance_heap_self s1 p v _ hk.2⟩
    obtain ⟨g1, g2, g3, g4⟩ :=
      runSchedule_cached env name (n + 1) _ p _ (h4 (n + 1) (Nat.le_refl _)) hcached rfl hv
    refine ⟨by rw [g1, h1], by rw [g2, h2], ?_, ?_⟩
    · intro i hi
      by_cases hin : i = n + 1
      · subst hin
        exact g3
      · rw [g4 i hin]
        exact h3 i (by omega)
    · intro j hj
      rw [g4 j (by omega)]
      exact h4 j (by omega)

/-- C12: the code breaks the claim. `Get` reads the cache slot, calls the builder and
writes the slot without any lock. After `Singleton("db", b)`, two goroutines that call
`Get("db")` and both pass the check before either stores each call the builder (schedule:
check 0, check 1, build 0, build 1, store 0, return 0, store 1, return 1): `b` is invoked
twice and the two calls return different instances, 7 and 8. -/
theorem concurrent_gets_build_twice :
    (runSchedule envCounter "db" [0, 1, 0, 1, 0, 0, 1, 1]
        (Conc.init (Singleton "db" 0 (New 7)))).invoked =
      [Invocation.service "db" 0 (Iface.val 7), Invocation.service "db" 0 (Iface.val 8)] ∧
    (runSchedule envCounter "db" [0, 1, 0, 1, 0, 0, 1, 1]
        (Conc.init (Singleton "db" 0 (New 7)))).phases 0 = Phase.done (Iface.val 7) ∧
    (runSchedule envCounter "db" [0, 1, 0, 1, 0, 0, 1, 1]
        (Conc.init (Singleton "db" 0 (New 7)))).phases 1 = Phase.done (Iface.val 8) := by
  decide

/-- Calls that run one after the other build once: let `name` be bound to the record made
by `Singleton(name, b)`, let the first invocation of `b` return a non-nil value `v` and
leave that registration in place. Under the schedule in which `N ≥ 1` goroutines run their
calls `Get(name)` to the end in turn, `b` is invoked exactly once and all `N` calls
return `v`. -/
theorem serial_gets_build_once (env : Env) (name : String) (s s1 : Store) (p b N : Nat)
    (v : Iface)
    (hfind : s.find name = some (p, (Registration.Singleton name b).record))
    (hcall : env.serviceBuilder b s = some (v, s1))
    (hv : v ≠ Iface.nil)
    (hkeep : s1.find name = some (p, (Registration.Singleton name b).record))
    (hN : 1 ≤ N) :
    (runSchedule env name (serialSchedule N) (Conc.init s)).invoked =
      [Invocation.service name b v] ∧
    (∀ i, i < N →
      (runSchedule env name (serialSchedule N) (Conc.init s)).phases i = Phase.done v) ∧
    (runSchedule env name (serialSchedule N) (Conc.init s)).store = s1.setInstance p v := by
  obtain ⟨n, rfl⟩ : ∃ n, N = n + 1 := ⟨N - 1, by omega⟩
  obtain ⟨h1, h2, h3, _⟩ := serialSchedule_run env name s s1 p b v hfind hcall hv hkeep n
  exact ⟨h2, h3, h1⟩

theorem serial_gets_build_once_witness :
    (runSchedule envCounter "db" (serialSchedule 3) (Conc.init (Singleton "db" 0 (New 7)))).invoked
      = [Invocation.service "db" 0 (Iface.val 7)] ∧
    (∀ i, i < 3 →
      (runSchedule envCounter "db" (serialSchedule 3)
        (Conc.init (Singleton "db" 0 (New 7)))).phases i = Phase.done (Iface.val 7)) ∧
    (runSchedule envCounter "db" (serialSchedule 3) (Conc.init (Singleton "db" 0 (New 7)))).store
      = ({ (Singleton "db" 0 (New 7)) with world := 8 } : Store).setInstance 0 (Iface.val 7) :=
  serial_gets_build_once envCounter "db" (Singleton "db" 0 (New 7))
    { (Singleton "db" 0 (New 7)) with world := 8 } 0 0 3 (Iface.val 7)
    (by decide) (by decide) (by decide) (by decide) (by decide)

/-- Specification of the loop of `Middleware` when it completes, for builders that make no
registration: it keeps the table; it invokes builders only for visited names; it leaves
alone every key that is not a visited scoped name; and for a scoped name visited once it
makes one invocation, of the scoped builder stored in the record, and stores the value
returned under the name. -/
theorem rangeServices_done_spec (env : Env) (hresp : env.respects TableFrame) (r : Request) :
    ∀ (order : List String) (ctx c : Context) (s s1 : Store) (tr : List Invocation),
      rangeServices env r order ctx s = LoopResult.done c s1 tr →
        TableFrame s s1 ∧
        (∀ e ∈ tr, e.name ∈ order) ∧
        (∀ k, (∀ name ∈ order, k = CtxKey.str name → ¬ s.isScopedName name) →
          c.Value k = ctx.Value k) ∧
        (order.Nodup → ∀ n p srv, n ∈ order → s.find n = some (p, srv) →
          srv.scoped_ = true →
          ∃ b v sa sb, srv.builder = Builder.ScopedServiceBuilder b ∧ TableFrame s sa ∧
            env.scopedBuilder b r sa = some (v, sb) ∧
            tr.filter (fun e => decide (e.name = n)) = [Invocation.scopedService n b r v] ∧
            c.Value (CtxKey.str n) = v) := by
  intro order
  induction order with
  | nil =>
    intro ctx c s s1 tr h
    simp only [rangeServices_nil, LoopResult.done.injEq] at h
    obtain ⟨hc, hs, ht⟩ := h
    subst hc
    subst hs
    subst ht
    refine ⟨TableFrame_refl s, ?_, ?_, ?_⟩
    · intro e he
      cases he
    · intro k _
      rfl
    · intro _ n p srv hn
      cases hn
  | cons name rest ih =>
    intro ctx c s s1 tr h
    -- what the induction hypothesis gives when the head is skipped
    have hskip : rangeServices env r (name :: rest) ctx s = rangeServices env r rest ctx s →
        ¬ s.isScopedName name →
        TableFrame s s1 ∧
          (∀ e ∈ tr, e.name ∈ name :: rest) ∧
          (∀ k, (∀ nm ∈ name :: rest, k = CtxKey.str nm → ¬ s.isScopedName nm) →
            c.Value k = ctx.Value k) ∧
          ((name :: rest).Nodup → ∀ n p srv, n ∈ name :: rest → s.find n = some (p, srv) →
            srv.scoped_ = true →
            ∃ b v sa sb, srv.builder = Builder.ScopedServiceBuilder b ∧ TableFrame s sa ∧
              env.scopedBuilder b r sa = some (v, sb) ∧
              tr.filter (fun e => decide (e.name = n)) = [Invocation.scopedService n b r v] ∧
              c.Value (CtxKey.str n) = v) := by
      intro heq hnot
      rw [heq] at h
      obtain ⟨hfr, hev, hctx, hone⟩ := ih ctx c s s1 tr h
      refine ⟨hfr, ?_, ?_, ?_⟩
      · intro e he
        exact List.mem_cons_of_mem _ (hev e he)
      · intro k hk
        exact hctx k (fun nm hnm => hk nm (List.mem_cons_of_mem _ hnm))
      · intro hnd n p srv hn hf hsc
        have hne : n ≠ name := by
          intro e
          subst e
          exact hnot ⟨p, srv, hf, hsc⟩
        have hn2 : n ∈ rest := by
          rcases List.mem_cons.1 hn with e | e
          · exact absurd e hne
          · exact e
        exact hone (List.nodup_cons.1 hnd).2 n p srv hn2 hf hsc
    cases hl : mapLookup s.loc.services name with
    | none =>
      refine hskip (rangeServices_skip_unbound env r name rest ctx s hl) ?_
      rintro ⟨p, srv, hf, _⟩
      rw [find_eq_some, hl] at hf
      cases hf.1
    | some p =>
      cases hh : s.heap[p]? with
      | none => simp [rangeServices, hl, hh] at h
      | some srv =>
        cases hsc : srv.scoped_ with
        | false =>
          refine hskip (rangeServices_skip_unscoped env r name rest ctx s p srv hl hh hsc) ?_
          rintro ⟨p2, srv2, hf, hsc2⟩
          rw [find_eq_some, hl] at hf
          have hp : p = p2 := Option.some.inj hf.1
          subst hp
          rw [hh] at hf
          have hs : srv = srv2 := Option.some.inj hf.2
          subst hs
          rw [hsc] at hsc2
          cases hsc2
        | true =>
          cases hb : srv.builder with
          | ServiceBuilder id => simp [rangeServices, hl, hh, hsc, hb] at h
          | ScopedServiceBuilder id =>
            cases hc : env.scopedBuilder id r s with
            | none => simp [rangeServices, hl, hh, hsc, hb, hc] at h
            | some res =>
              obtain ⟨v, sb⟩ := res
              rw [rangeServices_build env r name rest ctx s sb p id srv v hl hh hsc hb hc] at h
              cases hrec : rangeServices env r rest (WithValue ctx (CtxKey.str name) v) sb with
              | noReturn => simp [hrec] at h
              | panic => simp [hrec] at h
              | done c2 s2 tr2 =>
                simp only [hrec, LoopResult.done.injEq] at h
                obtain ⟨hc2, hs2, ht2⟩ := h
                subst hc2
                subst hs2
                subst ht2
                have hfsb : TableFrame s sb := hresp.2.1 id r s v sb hc
                obtain ⟨hfr, hev, hctx, hone⟩ := ih _ c2 sb s2 tr2 hrec
                have hscoped : s.isScopedName name :=
                  ⟨p, srv, (find_eq_some s name p srv).2 ⟨hl, hh⟩, hsc⟩
                refine ⟨TableFrame_trans s sb s2 hfsb hfr, ?_, ?_, ?_⟩
                · intro e he
                  rcases List.mem_cons.1 he with e1 | e1
                  · rw [e1]
                    exact List.mem_cons_self _ _
                  · exact List.mem_cons_of_mem _ (hev e e1)
                · intro k hk
                  have hkn : CtxKey.str name ≠ k := fun e =>
                    hk name (List.mem_cons_self _ _) e.symm hscoped
                  rw [hctx k (fun nm hnm e hs => hk nm (List.mem_cons_of_mem _ hnm) e
                    ((TableFrame_isScopedName s sb hfsb nm).1 hs))]
                  exact Value_WithValue_ne ctx _ k v hkn
                · intro hnd n p2 srv2 hn hf hsc2
                  obtain ⟨hnotin, hnd2⟩ := List.nodup_cons.1 hnd
                  by_cases hne : n = name
                  · subst hne
                    rw [find_eq_some, hl] at hf
                    have hp : p = p2 := Option.some.inj hf.1
                    subst hp
                    rw [hh] at hf
                    have hs : srv = srv2 := Option.some.inj hf.2
                    subst hs
                    refine ⟨id, v, s, sb, hb, TableFrame_refl s, hc, ?_, ?_⟩
                    · have hnone : tr2.filter (fun e => decide (e.name = n)) = [] := by
                        rw [List.filter_eq_nil_iff]
                        intro e he hd
                        have : e.name = n := of_decide_eq_true hd
                        exact hnotin (this ▸ hev e he)
                      have hhead : decide ((Invocation.scopedService n id r v).name = n) = true :=
                        decide_eq_true rfl
                      have hfc : List.filter (fun e => decide (e.name = n))
                          (Invocation.scopedService n id r v :: tr2) =
                          Invocation.scopedService n id r v ::
                            List.filter (fun e => decide (e.name = n)) tr2 :=
                        List.filter_cons_of_pos hhead
                      rw [hfc, hnone]
                    · rw [hctx (CtxKey.str n) (fun nm hnm e _ => by
                        have : n = nm := by injection e
                        exact hnotin (this ▸ hnm))]
                      exact Value_WithValue_self ctx _ v
                  · have hn2 : n ∈ rest := by
                      rcases List.mem_cons.1 hn with e | e
                      · exact absurd e hne
                      · exact e
                    obtain ⟨srv3, hf3, hb3, _, hc3⟩ := TableFrame_find s sb hfsb n p2 srv2 hf
                    obtain ⟨b, w, sa, sc, hbb, hfsa, hcall, hfil, hval⟩ :=
                      hone hnd2 n p2 srv3 hn2 hf3 (by rw [hc3]; exact hsc2)
                    refine ⟨b, w, sa, sc, by rw [← hb3]; exact hbb,
                      TableFrame_trans s sb sa hfsb hfsa, hcall, ?_, hval⟩
                    have hhead :
                        ¬ decide ((Invocation.scopedService name id r v).name = n) = true :=
                      fun e => hne (of_decide_eq_true e).symm
                    have hfc : List.filter (fun e => decide (e.name = n))
                        (Invocation.scopedService name id r v :: tr2) =
                        List.filter (fun e => decide (e.name = n)) tr2 :=
                      List.filter_cons_of_neg hhead
                    rw [hfc, hfil]

/-- The loop of `Middleware` completes when the scoped records are sound and every scoped
builder registered returns on stores that have the same table. -/
theorem rangeServices_completes (env : Env) (hresp : env.respects TableFrame) (r : Request)
    (s0 : Store) (hsound : ScopedRecordsSound s0) (hret : ScopedBuildersReturn env r s0) :
    ∀ (order : List String) (ctx : Context) (s : Store), TableFrame s0 s →
      ∃ c s1 tr, rangeServices env r order ctx s = LoopResult.done c s1 tr := by
  intro order
  induction order with
  | nil =>
    intro ctx s _
    exact ⟨ctx, s, [], rfl⟩
  | cons name rest ih =>
    intro ctx s hfr
    cases hl : mapLookup s.loc.services name with
    | none =>
      rw [rangeServices_skip_unbound env r name rest ctx s hl]
      exact ih ctx s hfr
    | some p =>
      have hl0 : mapLookup s0.loc.services name = some p := by
        rw [← hfr.1]
        exact hl
      obtain ⟨srv0, hh0, hok⟩ := hsound name p hl0
      obtain ⟨srv, hh, hb, _, hsc, _⟩ := hfr.2.2 p srv0 hh0
      cases hscv : srv.scoped_ with
      | false =>
        rw [rangeServices_skip_unscoped env r name rest ctx s p srv hl hh hscv]
        exact ih ctx s hfr
      | true =>
        have hsc0 : srv0.scoped_ = true := by
          rw [← hsc]
          exact hscv
        obtain ⟨id, hid⟩ := hok hsc0
        obtain ⟨v, sb, hc⟩ :=
          hret name p srv0 id s ((find_eq_some s0 name p srv0).2 ⟨hl0, hh0⟩) hsc0 hid hfr
        have hfsb : TableFrame s0 sb := TableFrame_trans s0 s sb hfr (hresp.2.1 id r s v sb hc)
        obtain ⟨c, s2, tr, hrun⟩ := ih (WithValue ctx (CtxKey.str name) v) sb hfsb
        refine ⟨c, s2, Invocation.scopedService name id r v :: tr, ?_⟩
        rw [rangeServices_build env r name rest ctx s sb p id srv v hl hh hscv
          (by rw [hb]; exact hid) hc, hrun]

/-- The handler returned by `Middleware` reaches the next handler only after the loop has
completed, and passes it the request with the context the loop built. -/
theorem Middleware_served_inv (env : Env) (order : List String) (next : Nat)
    (r passed : Request) (s s2 : Store) (tr : List Invocation)
    (h : Middleware env order next r s = ServeResult.served passed s2 tr) :
    ∃ ctx s1, rangeServices env r order r.Context s = LoopResult.done ctx s1 tr ∧
      passed = r.WithContext ctx ∧ env.handler next passed s1 = some s2 := by
  unfold Middleware at h
  cases hloop : rangeServices env r order r.Context s with
  | noReturn => simp [hloop] at h
  | panic => simp [hloop] at h
  | done c s1 tr1 =>
    cases hn : env.handler next (r.WithContext c) s1 with
    | none => simp [hloop, hn] at h
    | some s3 =>
      simp only [hloop, hn, ServeResult.served.injEq] at h
      obtain ⟨hp, hs, ht⟩ := h
      subst hp
      subst hs
      subst ht
      exact ⟨c, s1, rfl, rfl, hn⟩

theorem envResolving_respects : envResolving.respects TableFrame := by
  refine ⟨envCounter_respects.1, ?_, ?_⟩
  · intro b r s v s1 h
    simp only [envResolving] at h
    cases hg : Get envCounter "clock" s with
    | ret w s2 tr =>
      cases w with
      | nil => simp [hg] at h
      | val c =>
        simp only [hg, Option.some.injEq, Prod.mk.injEq] at h
        rw [← h.2]
        exact Get_frame envCounter envCounter_respects "clock" s s2 (Iface.val c) tr hg
    | fatal f tr => simp [hg] at h
    | noReturn => simp [hg] at h
    | panic => simp [hg] at h
  · intro b r s s1 h
    simp only [envResolving, Option.some.injEq] at h
    rw [← h]
    exact TableFrame_refl s

/-- On a store where "clock" is a singleton built by a service builder, resolving it
returns a non-nil value: the cached one, or the one `envCounter` builds. -/
theorem Get_clock_returns (s : Store) (p id : Nat) (srv : service)
    (hf : s.find "clock" = some (p, srv)) (hsing : srv.singleton = true)
    (hb : srv.builder = Builder.ServiceBuilder id) :
    ∃ c s1 tr, Get envCounter "clock" s = Result.ret (Iface.val c) s1 tr ∧
      (∀ c0, srv.instance_ = Iface.val c0 → c = c0) := by
  cases hi : srv.instance_ with
  | nil =>
    have hh := ((find_eq_some _ _ _ _).1 hf).2
    have hg := Get_singleton_first envCounter "clock" s { s with world := s.world + 1 } p id
      srv srv (Iface.val s.world) hf hsing hi hb rfl hh
    exact ⟨s.world, _, _, hg, fun c0 h0 => by cases h0⟩
  | val c0 =>
    have hg := Get_singleton_cached envCounter "clock" s p srv hf hsing (by rw [hi]; simp)
    rw [hi] at hg
    exact ⟨c0, s, [], hg, fun c1 h1 => by injection h1⟩

/-- The scoped builders of `envResolving` return, with a value fixed by the request, on
every store that has the table of a store where "clock" is a cached singleton. -/
theorem envResolving_on_frame (s sa : Store) (p id c0 : Nat) (srv : service) (r : Request)
    (hf : s.find "clock" = some (p, srv)) (hsing : srv.singleton = true)
    (hb : srv.builder = Builder.ServiceBuilder id) (hi : srv.instance_ = Iface.val c0)
    (hfr : TableFrame s sa) (b : Nat) :
    ∃ s1, envResolving.scopedBuilder b r sa = some (Iface.val (c0 + r.id), s1) := by
  have hfl := (find_eq_some _ _ _ _).1 hf
  obtain ⟨srv1, h1, hb1, hs1, _, hi1⟩ := hfr.2.2 p srv hfl.2
  have hinst : srv1.instance_ = Iface.val c0 := by
    rcases hi1 with e | e
    · rw [e, hi]
    · rw [hi] at e
      cases e.2
  have hfa : sa.find "clock" = some (p, srv1) := by
    rw [find_eq_some, hfr.1]
    exact ⟨hfl.1, h1⟩
  obtain ⟨c, s1, tr, hg, hc⟩ := Get_clock_returns sa p id srv1 hfa (by rw [hs1]; exact hsing)
    (by rw [hb1]; exact hb)
  have hcc : c = c0 := hc c0 hinst
  subst hcc
  exact ⟨s1, by simp [envResolving, hg]⟩

theorem WellFormed_sound (s : Store) (h : WellFormed s) : ScopedRecordsSound s := by
  intro name p hl
  have hlt := h.2.1 name p hl
  refine ⟨s.heap[p], List.getElem?_eq_getElem hlt, ?_⟩
  intro hsc
  exact builderMatches_scoped _ (h.2.2 p _ (List.getElem?_eq_getElem hlt)).2.2 hsc

theorem storeResolved_wellFormed : WellFormed storeResolved :=
  run_wellFormed envCounter envCounter_api
    [Op.register (Registration.Singleton "clock" 1), Op.Get "clock",
      Op.register (Registration.Scoped "requestId" 0),
      Op.register (Registration.Scoped "user" 2)]
    (New 7) storeResolved (by decide) (New_wellFormed 7)

theorem storeResolved_clock :
    storeResolved.find "clock" =
      some (0, { (Registration.Singleton "clock" 1).record with instance_ := Iface.val 7 }) := by
  decide

theorem storeResolved_returns (r : Request) :
    ScopedBuildersReturn envResolving r storeResolved := by
  intro n p srv id sa _ _ _ hfr
  obtain ⟨s1, h⟩ := envResolving_on_frame storeResolved sa 0 1 7 _ r
    storeResolved_clock rfl rfl rfl hfr id
  exact ⟨_, s1, h⟩

theorem storeResolved_fixed (r : Request) :
    ScopedValuesFixed envResolving r storeResolved := by
  intro n p srv id sa sb sa1 sb1 va vb _ _ _ hfa hfb hca hcb
  obtain ⟨s1, h1⟩ := envResolving_on_frame storeResolved sa 0 1 7 _ r
    storeResolved_clock rfl rfl rfl hfa id
  obtain ⟨s2, h2⟩ := envResolving_on_frame storeResolved sb 0 1 7 _ r
    storeResolved_clock rfl rfl rfl hfb id
  rw [hca] at h1
  rw [hcb] at h2
  rw [(Prod.mk.inj (Option.some.inj h1)).1, (Prod.mk.inj (Option.some.inj h2)).1]

/-- C3: for every store, every request `r`, every visiting order of the keys and every
name `n` bound to the record made by `Scoped(n, b)`, with builders that make no
registration: (1) whenever the loop of `Middleware` completes, the handler passes
`r.WithContext(ctx)` to the next handler, exactly one builder invocation was made for `n`,
it is `b` called with `r` on a store with the same table, and `GetScoped` on the context
passed and `n` returns the value `v` that this invocation returned; (2) the next handler is
reached only after the loop has completed; (3) the loop completes whenever the scoped
builders registered return on stores with this table (builders may resolve through the
locator). -/
theorem middleware_getscoped_roundtrip (env : Env) (hresp : env.respects TableFrame)
    (order : List String) (next : Nat) (r : Request) (s : Store) (n : String) (p b : Nat)
    (hkeys : (mapKeys s.loc.services).Nodup)
    (horder : order.Perm (mapKeys s.loc.services))
    (hfind : s.find n = some (p, (Registration.Scoped n b).record)) :
    (∀ ctx s1 tr, rangeServices env r order r.Context s = LoopResult.done ctx s1 tr →
      Middleware env order next r s =
        (match env.handler next (r.WithContext ctx) s1 with
          | some s2 => ServeResult.served (r.WithContext ctx) s2 tr
          | none => ServeResult.noReturn) ∧
      ∃ v sa sb, TableFrame s sa ∧ env.scopedBuilder b r sa = some (v, sb) ∧
        tr.filter (fun e => decide (e.name = n)) = [Invocation.scopedService n b r v] ∧
        GetScoped (r.WithContext ctx).Context n s1 = Result.ret v s1 []) ∧
    (∀ passed s2 tr, Middleware env order next r s = ServeResult.served passed s2 tr →
      ∃ ctx s1, rangeServices env r order r.Context s = LoopResult.done ctx s1 tr ∧
        passed = r.WithContext ctx ∧ env.handler next passed s1 = some s2) ∧
    (ScopedRecordsSound s → ScopedBuildersReturn env r s →
      ∃ ctx s1 tr, rangeServices env r order r.Context s = LoopResult.done ctx s1 tr) := by
  refine ⟨?_, fun passed s2 tr h => Middleware_served_inv env order next r passed s s2 tr h,
    fun hsound hret =>
      rangeServices_completes env hresp r s hsound hret order r.Context s (TableFrame_refl s)⟩
  intro ctx s1 tr hrun
  obtain ⟨hfr, _, _, hone⟩ := rangeServices_done_spec env hresp r order r.Context ctx s s1 tr hrun
  have hnd : order.Nodup := (List.Perm.nodup_iff horder).2 hkeys
  have hmem : n ∈ order :=
    (List.Perm.mem_iff horder).2
      (mapLookup_mem_keys _ n p ((find_eq_some _ _ _ _).1 hfind).1)
  obtain ⟨b2, v, sa, sb, hb2, hfsa, hcall, hfil, hval⟩ := hone hnd n p _ hmem hfind rfl
  have hbb : b = b2 := by
    have : Builder.ScopedServiceBuilder b = Builder.ScopedServiceBuilder b2 := hb2
    injection this
  subst hbb
  obtain ⟨srv1, hf1, _, _, hsc1⟩ := TableFrame_find s s1 hfr n p _ hfind
  refine ⟨Middleware_of_loop env order next r s s1 ctx tr hrun, v, sa, sb, hfsa, hcall, hfil, ?_⟩
  have hg := GetScoped_scoped (r.WithContext ctx).Context n s1 p srv1 hf1
    (by rw [hsc1]; rfl)
  rw [hg]
  have hv : (r.WithContext ctx).Context.Value (CtxKey.str n) = v := hval
  rw [hv]

theorem middleware_getscoped_roundtrip_witness :
    ∃ ctx s1 tr,
      rangeServices envResolving { id := 41, ctx := [] } ["clock", "user", "requestId"]
        (Request.Context { id := 41, ctx := [] }) storeResolved = LoopResult.done ctx s1 tr ∧
      tr.filter (fun e => decide (e.name = "requestId")) =
        [Invocation.scopedService "requestId" 0 { id := 41, ctx := [] } (Iface.val 48)] ∧
      GetScoped (Request.WithContext { id := 41, ctx := [] } ctx).Context "requestId" s1 =
        Result.ret (Iface.val 48) s1 [] := by
  have T := middleware_getscoped_roundtrip envResolving envResolving_respects
    ["clock", "user", "requestId"] 0 { id := 41, ctx := [] } storeResolved "requestId" 1 0
    (by decide) (by decide) (by decide)
  obtain ⟨ctx, s1, tr, hrun⟩ :=
    T.2.2 (WellFormed_sound _ storeResolved_wellFormed) (storeResolved_returns _)
  obtain ⟨_, v, sa, sb, hfsa, hcall, hfil, hget⟩ := T.1 ctx s1 tr hrun
  obtain ⟨s2, h2⟩ := envResolving_on_frame storeResolved sa 0 1 7 _ { id := 41, ctx := [] }
    storeResolved_clock rfl rfl rfl hfsa 0
  rw [hcall] at h2
  have hv : v = Iface.val 48 := (Prod.mk.inj (Option.some.inj h2)).1
  subst hv
  exact ⟨ctx, s1, tr, hrun, hfil, hget⟩

/-- C16: for every store, every request `r` with incoming context `ctx0 = r.Context()`
and every visiting order of the keys, with builders that make no registration:
(1) whenever the loop of `Middleware` completes, the context `ctx` handed to the next
handler gives `ctx0.Value(k)` for every key `k` that is not the name of a scoped
registration (values already present are kept, nothing is added for transient or singleton
names), and for the name `n` of a scoped registration it gives the value returned by the
one invocation made for `n`, of the record's scoped builder with `r`, whatever `ctx0` held
under `n`; (2) the next handler is reached only after the loop has completed; (3) the loop
completes whenever the scoped builders registered return on stores with this table. -/
theorem middleware_extends_context (env : Env) (hresp : env.respects TableFrame)
    (order : List String) (next : Nat) (r : Request) (s : Store)
    (hkeys : (mapKeys s.loc.services).Nodup)
    (horder : order.Perm (mapKeys s.loc.services)) :
    (∀ ctx s1 tr, rangeServices env r order r.Context s = LoopResult.done ctx s1 tr →
      Middleware env order next r s =
        (match env.handler next (r.WithContext ctx) s1 with
          | some s2 => ServeResult.served (r.WithContext ctx) s2 tr
          | none => ServeResult.noReturn) ∧
      (∀ k, (∀ n, k = CtxKey.str n → ¬ s.isScopedName n) →
        (r.WithContext ctx).Context.Value k = r.Context.Value k) ∧
      (∀ n p srv, s.find n = some (p, srv) → srv.scoped_ = true →
        ∃ b v sa sb, srv.builder = Builder.ScopedServiceBuilder b ∧ TableFrame s sa ∧
          env.scopedBuilder b r sa = some (v, sb) ∧
          tr.filter (fun e => decide (e.name = n)) = [Invocation.scopedService n b r v] ∧
          (r.WithContext ctx).Context.Value (CtxKey.str n) = v)) ∧
    (∀ passed s2 tr, Middleware env order next r s = ServeResult.served passed s2 tr →
      ∃ ctx s1, rangeServices env r order r.Context s = LoopResult.done ctx s1 tr ∧
        passed = r.WithContext ctx ∧ env.handler next passed s1 = some s2) ∧
    (ScopedRecordsSound s → ScopedBuildersReturn env r s →
      ∃ ctx s1 tr, rangeServices env r order r.Context s = LoopResult.done ctx s1 tr) := by
  refine ⟨?_, fun passed s2 tr h => Middleware_served_inv env order next r passed s s2 tr h,
    fun hsound hret =>
      rangeServices_completes env hresp r s hsound hret order r.Context s (TableFrame_refl s)⟩
  intro ctx s1 tr hrun
  obtain ⟨_, _, hctx, hone⟩ := rangeServices_done_spec env hresp r order r.Context ctx s s1 tr hrun
  have hnd : order.Nodup := (List.Perm.nodup_iff horder).2 hkeys
  refine ⟨Middleware_of_loop env order next r s s1 ctx tr hrun, ?_, ?_⟩
  · intro k hk
    exact hctx k (fun n _ e => hk n e)
  · intro n p srv hf hsc
    have hmem : n ∈ order :=
      (List.Perm.mem_iff horder).2
        (mapLookup_mem_keys _ n p ((find_eq_some _ _ _ _).1 hf).1)
    exact hone hnd n p srv hmem hf hsc

theorem middleware_extends_context_witness :
    ∃ ctx s1 tr,
      rangeServices envResolving
        { id := 41, ctx := [(CtxKey.str "clock", Iface.val 5), (CtxKey.str "user", Iface.val 6)] }
        ["clock", "user", "requestId"]
        [(CtxKey.str "clock", Iface.val 5), (CtxKey.str "user", Iface.val 6)]
        storeResolved = LoopResult.done ctx s1 tr ∧
      ctx.Value (CtxKey.str "clock") = Iface.val 5 ∧
      ctx.Value (CtxKey.other 3) = Iface.nil ∧
      ctx.Value (CtxKey.str "user") = Iface.val 48 := by
  have T := middleware_extends_context envResolving envResolving_respects
    ["clock", "user", "requestId"] 0
    { id := 41, ctx := [(CtxKey.str "clock", Iface.val 5), (CtxKey.str "user", Iface.val 6)] }
    storeResolved (by decide) (by decide)
  obtain ⟨ctx, s1, tr, hrun⟩ :=
    T.2.2 (WellFormed_sound _ storeResolved_wellFormed) (storeResolved_returns _)
  obtain ⟨_, hkeep, hscoped⟩ := T.1 ctx s1 tr hrun
  have hclock : ¬ storeResolved.isScopedName "clock" := by
    rintro ⟨p, srv, hf, hsc⟩
    rw [storeResolved_clock] at hf
    have he := (Prod.mk.inj (Option.some.inj hf)).2
    rw [← he] at hsc
    cases hsc
  refine ⟨ctx, s1, tr, hrun, ?_, ?_, ?_⟩
  · exact hkeep (CtxKey.str "clock") (fun n e => by
      have hn : "clock" = n := by injection e
      rw [← hn]
      exact hclock)
  · exact hkeep (CtxKey.other 3) (fun n e => by cases e)
  · obtain ⟨b, v, sa, sb, _, hfsa, hcall, _, hval⟩ :=
      hscoped "user" 2 (Registration.Scoped "user" 2).record (by decide) rfl
    obtain ⟨s2, h2⟩ := envResolving_on_frame storeResolved sa 0 1 7 _
      { id := 41, ctx := [(CtxKey.str "clock", Iface.val 5), (CtxKey.str "user", Iface.val 6)] }
      storeResolved_clock rfl rfl rfl hfsa b
    rw [hcall] at h2
    have hv : v = Iface.val 48 := (Prod.mk.inj (Option.some.inj h2)).1
    rw [← hv]
    exact hval

/-- C13: for every store, every request `r` and any two orders `o1`, `o2` in which `range`
may visit the keys, with scoped builders that make no registration and whose value is
fixed by the request and the table (it is the same on every store with this table, so
it does not depend on what was invoked before): (1) whenever both loops complete, the
handler passes `r.WithContext(c1)` resp. `r.WithContext(c2)` on and the two contexts agree
on every key, `c1.Value(k) = c2.Value(k)`; (2) both loops complete whenever the scoped
builders registered return on stores with this table. -/
theorem scoped_values_order_independent (env : Env) (hresp : env.respects TableFrame)
    (o1 o2 : List String) (next : Nat) (r : Request) (s : Store)
    (hfixed : ScopedValuesFixed env r s)
    (hkeys : (mapKeys s.loc.services).Nodup)
    (h1 : o1.Perm (mapKeys s.loc.services)) (h2 : o2.Perm (mapKeys s.loc.services)) :
    (∀ c1 s1 t1 c2 s2 t2,
      rangeServices env r o1 r.Context s = LoopResult.done c1 s1 t1 →
      rangeServices env r o2 r.Context s = LoopResult.done c2 s2 t2 →
      Middleware env o1 next r s =
        (match env.handler next (r.WithContext c1) s1 with
          | some s3 => ServeResult.served (r.WithContext c1) s3 t1
          | none => ServeResult.noReturn) ∧
      Middleware env o2 next r s =
        (match env.handler next (r.WithContext c2) s2 with
          | some s3 => ServeResult.served (r.WithContext c2) s3 t2
          | none => ServeResult.noReturn) ∧
      ∀ k, c1.Value k = c2.Value k) ∧
    (ScopedRecordsSound s → ScopedBuildersReturn env r s →
      ∃ c1 s1 t1 c2 s2 t2,
        rangeServices env r o1 r.Context s = LoopResult.done c1 s1 t1 ∧
        rangeServices env r o2 r.Context s = LoopResult.done c2 s2 t2) := by
  constructor
  · intro c1 s1 t1 c2 s2 t2 hrun1 hrun2
    obtain ⟨_, _, hctx1, hone1⟩ :=
      rangeServices_done_spec env hresp r o1 r.Context c1 s s1 t1 hrun1
    obtain ⟨_, _, hctx2, hone2⟩ :=
      rangeServices_done_spec env hresp r o2 r.Context c2 s s2 t2 hrun2
    refine ⟨Middleware_of_loop env o1 next r s s1 c1 t1 hrun1,
      Middleware_of_loop env o2 next r s s2 c2 t2 hrun2, ?_⟩
    intro k
    by_cases hk : ∃ n, k = CtxKey.str n ∧ s.isScopedName n
    · obtain ⟨n, hkn, p, srv, hf, hsc⟩ := hk
      subst hkn
      have hmem := mapLookup_mem_keys _ n p ((find_eq_some _ _ _ _).1 hf).1
      obtain ⟨b1, v1, sa1, sb1, hb1, hf1, hc1, _, hv1⟩ :=
        hone1 ((List.Perm.nodup_iff h1).2 hkeys) n p srv ((List.Perm.mem_iff h1).2 hmem) hf hsc
      obtain ⟨b2, v2, sa2, sb2, hb2, hf2, hc2, _, hv2⟩ :=
        hone2 ((List.Perm.nodup_iff h2).2 hkeys) n p srv ((List.Perm.mem_iff h2).2 hmem) hf hsc
      have hbb : b1 = b2 := by
        rw [hb1] at hb2
        injection hb2
      subst hbb
      rw [hv1, hv2]
      exact hfixed n p srv b1 sa1 sa2 sb1 sb2 v1 v2 hf hsc hb1 hf1 hf2 hc1 hc2
    · have hnot : ∀ n, k = CtxKey.str n → ¬ s.isScopedName n :=
        fun n e hs => hk ⟨n, e, hs⟩
      rw [hctx1 k (fun n _ e => hnot n e), hctx2 k (fun n _ e => hnot n e)]
  · intro hsound hret
    obtain ⟨c1, s1, t1, hr1⟩ :=
      rangeServices_completes env hresp r s hsound hret o1 r.Context s (TableFrame_refl s)
    obtain ⟨c2, s2, t2, hr2⟩ :=
      rangeServices_completes env hresp r s hsound hret o2 r.Context s (TableFrame_refl s)
    exact ⟨c1, s1, t1, c2, s2, t2, hr1, hr2⟩

theorem scoped_values_order_independent_witness :
    ∃ c1 s1 t1 c2 s2 t2,
      rangeServices envResolving { id := 41, ctx := [] } ["requestId", "clock", "user"]
        (Request.Context { id := 41, ctx := [] }) storeResolved = LoopResult.done c1 s1 t1 ∧
      rangeServices envResolving { id := 41, ctx := [] } ["user", "requestId", "clock"]
        (Request.Context { id := 41, ctx := [] }) storeResolved = LoopResult.done c2 s2 t2 ∧
      ∀ k, c1.Value k = c2.Value k := by
  have T := scoped_values_order_independent envResolving envResolving_respects
    ["requestId", "clock", "user"] ["user", "requestId", "clock"] 0 { id := 41, ctx := [] }
    storeResolved (storeResolved_fixed _) (by decide) (by decide) (by decide)
  obtain ⟨c1, s1, t1, c2, s2, t2, hr1, hr2⟩ :=
    T.2 (WellFormed_sound _ storeResolved_wellFormed) (storeResolved_returns _)
  exact ⟨c1, s1, t1, c2, s2, t2, hr1, hr2, (T.1 c1 s1 t1 c2 s2 t2 hr1 hr2).2.2⟩

/-- C8 (as stated) fails on the zero-value locator `&DefaultLocator{}`: its `services` map
is nil, so the assignment in `Transient`, `Singleton` and `Scoped` panics; no registration
call returns and the table holds no record for the name. -/
theorem zero_value_registration_panics :
    LocatorValue.register (Registration.Transient "db" 0) (LocatorValue.zero 0) = none ∧
    LocatorValue.register (Registration.Singleton "db" 1) (LocatorValue.zero 0) = none ∧
    LocatorValue.register (Registration.Scoped "db" 2) (LocatorValue.zero 0) = none ∧
    (LocatorValue.zero 0).store.find "db" = none := by
  decide

end Locator
